import Mathlib

/-!
Verification of the multi-rpc request fabric: a shallow embedding of the
endpoint pool (endpoints.rs), router (router.rs), consensus engine
(consensus.rs), response cache (cache.rs) and retry policy (retry.rs),
with theorems settling the specification claims about them.

JSON values are modelled as a tagged variant; objects are ordered lists of
key/value pairs with the source's `serde_json::Map` access semantics
(lookup by first match).  Machine floats used for confidences, delays and
response times are modelled as rationals; `Instant` timestamps as naturals.
-/

/-- JSON value (serde_json::Value): objects keep their textual field order. -/
inductive Json where
  | null : Json
  | bool : Bool → Json
  | num : ℚ → Json
  | str : String → Json
  | arr : List Json → Json
  | obj : List (String × Json) → Json

/-- Field lookup, `Value::get` on objects: first binding of the key wins,
`None` on non-objects. -/
def Json.getField : Json → String → Option Json
  | .obj l, k => (l.find? (fun p => p.1 = k)).map Prod.snd
  | _, _ => none

/-- `Value::as_u64`: a JSON number that is a non-negative integer. -/
def Json.asU64 : Json → Option ℕ
  | .num q => if q.den = 1 ∧ 0 ≤ q.num then some q.num.toNat else none
  | _ => none

/-- `Value::as_i64`: a JSON number that is an integer. -/
def Json.asI64 : Json → Option ℤ
  | .num q => if q.den = 1 then some q.num else none
  | _ => none

/-- `Value::as_f64`: any JSON number. -/
def Json.asF64 : Json → Option ℚ
  | .num q => some q
  | _ => none

/-- The error cases of `AppError` (error.rs) reachable from the embedded
request fabric; message payloads kept only where a claim observes them. -/
inductive AppError where
  | AllEndpointsUnhealthy : AppError
  | InsufficientConfirmations : AppError
  | CircuitBreakerOpen : AppError
  | RequestTimeout : AppError
  | NetworkError : AppError
  | JsonError : AppError
  | InvalidRequest : String → AppError
  | EndpointError : String → AppError
  | ConsensusError : AppError
  | InternalError : String → AppError
  deriving DecidableEq

/-- Display string of an error, as interpolated into batch error bodies
(`e.to_string()`); payload text abstracted to the variant name. -/
def AppError.toMessage : AppError → String
  | .AllEndpointsUnhealthy => "All endpoints are unhealthy"
  | .InsufficientConfirmations => "Insufficient confirmations"
  | .CircuitBreakerOpen => "Circuit breaker open"
  | .RequestTimeout => "Request timeout"
  | .NetworkError => "Network error"
  | .JsonError => "JSON error"
  | .InvalidRequest m => "Invalid request: " ++ m
  | .EndpointError m => "Endpoint error: " ++ m
  | .ConsensusError => "Consensus error"
  | .InternalError m => "Internal error: " ++ m

/-! rpc.rs: method categories, cacheability, TTLs, request validation. -/

inductive RpcMethodCategory where
  | Realtime | Account | Transaction | Block | Static | Subscription
  deriving DecidableEq

/-- rpc.rs `get_method_category`. -/
def get_method_category (method : String) : RpcMethodCategory :=
  if method = "getSlot" ∨ method = "getBlockHeight" ∨ method = "getRecentBlockhash" ∨
     method = "getLatestBlockhash" ∨ method = "getEpochInfo" ∨ method = "getHealth" ∨
     method = "getVersion" ∨ method = "getInflationGovernor" ∨ method = "getInflationRate" ∨
     method = "getInflationReward" then .Realtime
  else if method = "getAccountInfo" ∨ method = "getBalance" ∨ method = "getTokenAccountBalance" ∨
     method = "getTokenSupply" ∨ method = "getTokenAccountsByOwner" ∨
     method = "getTokenAccountsByDelegate" ∨ method = "getProgramAccounts" ∨
     method = "getMultipleAccounts" then .Account
  else if method = "getTransaction" ∨ method = "getSignatureStatuses" ∨
     method = "getSignaturesForAddress" ∨ method = "sendTransaction" ∨
     method = "simulateTransaction" ∨ method = "getRecentPerformanceSamples" ∨
     method = "getTransactionCount" then .Transaction
  else if method = "getBlock" ∨ method = "getBlockCommitment" ∨ method = "getBlocks" ∨
     method = "getBlocksWithLimit" ∨ method = "getFirstAvailableBlock" ∨
     method = "getBlockProduction" ∨ method = "getBlockTime" then .Block
  else if method = "getGenesisHash" ∨ method = "getIdentity" ∨ method = "getClusterNodes" ∨
     method = "getVoteAccounts" ∨ method = "getLeaderSchedule" ∨
     method = "getMinimumBalanceForRentExemption" ∨ method = "getFeeForMessage" ∨
     method = "getFees" ∨ method = "getRecentPrioritizationFees" then .Static
  else if method = "accountSubscribe" ∨ method = "accountUnsubscribe" ∨
     method = "programSubscribe" ∨ method = "programUnsubscribe" ∨
     method = "signatureSubscribe" ∨ method = "signatureUnsubscribe" ∨
     method = "slotSubscribe" ∨ method = "slotUnsubscribe" ∨ method = "rootSubscribe" ∨
     method = "rootUnsubscribe" ∨ method = "logsSubscribe" ∨ method = "logsUnsubscribe"
     then .Subscription
  else .Realtime

/-- rpc.rs `is_method_cacheable`. -/
def is_method_cacheable (method : String) : Bool :=
  match get_method_category method with
  | .Static | .Account | .Block => true
  | _ => false

/-- rpc.rs `get_cache_ttl` (seconds). -/
def get_rpc_cache_ttl (method : String) : Option ℕ :=
  match get_method_category method with
  | .Static => some 3600
  | .Account => some 10
  | .Block => some 60
  | _ => none

/-- Parsed JSON-RPC request (types.rs `RpcRequest`). -/
structure RpcRequest where
  id : Option Json
  method : String
  params : Option Json
  jsonrpc : String

/-- rpc.rs `validate_rpc_request`. -/
def validate_rpc_request (request : Json) : Except String RpcRequest :=
  match request.getField "jsonrpc" with
  | some (.str v) =>
    if v ≠ "2.0" then .error "Invalid jsonrpc version, must be 2.0"
    else
      match request.getField "method" with
      | some (.str m) =>
        if m = "" then .error "Method cannot be empty"
        else .ok ⟨request.getField "id", m, request.getField "params", v⟩
      | _ => .error "Missing or invalid method field"
  | _ => .error "Missing or invalid jsonrpc field"

/-! JSON serialization (`serde_json::to_string`): objects are rendered in
their stored field order, faithful to an order-preserving map. -/

mutual
/-- Serialize a JSON value to its text, `serde_json::to_string`. -/
def Json.serialize : Json → String
  | .null => "null"
  | .bool true => "true"
  | .bool false => "false"
  | .num q => toString q.num ++ (if q.den = 1 then "" else "/" ++ toString q.den)
  | .str s => "\"" ++ s ++ "\""
  | .arr xs => "[" ++ Json.serializeItems xs ++ "]"
  | .obj l => "\x7b" ++ Json.serializeFields l ++ "\x7d"

def Json.serializeItems : List Json → String
  | [] => ""
  | [x] => Json.serialize x
  | x :: y :: rest => Json.serialize x ++ "," ++ Json.serializeItems (y :: rest)

def Json.serializeFields : List (String × Json) → String
  | [] => ""
  | [(k, v)] => "\"" ++ k ++ "\":" ++ Json.serialize v
  | (k, v) :: q :: rest =>
    "\"" ++ k ++ "\":" ++ Json.serialize v ++ "," ++ Json.serializeFields (q :: rest)
end

/-! cache.rs: CacheService.  The shared (Redis) tier is modelled as
disconnected (`connection_manager = None`), which degrades every shared-tier
operation to a no-op exactly as in the source; the local tier is the
in-process map.  `Instant` is a natural-number clock in seconds. -/

/-- Pair ordering by string key, the comparator of `sort_by_key(|(k, _)| *k)`. -/
def pairKeyLe (p q : String × Json) : Prop := p.1 ≤ q.1

instance : DecidableRel pairKeyLe := fun p q => inferInstanceAs (Decidable (p.1 ≤ q.1))

instance : IsTotal (String × Json) pairKeyLe := ⟨fun p q => le_total p.1 q.1⟩

instance : IsTrans (String × Json) pairKeyLe := ⟨fun _ _ _ h h2 => le_trans h h2⟩

/-- cache.rs `CacheService::normalize_value`: recursively sort object keys
(`attach` only carries the membership proofs needed for termination). -/
def normalize_value : Json → Json
  | .obj l =>
    .obj ((List.insertionSort pairKeyLe l).attach.map
      (fun p => (p.1.1, normalize_value p.1.2)))
  | .arr xs => .arr (xs.attach.map (fun x => normalize_value x.1))
  | v => v
decreasing_by
  · rcases p with ⟨⟨k, v⟩, hm⟩
    have hs := List.sizeOf_lt_of_mem ((List.perm_insertionSort pairKeyLe l).mem_iff.mp hm)
    simp only [Prod.mk.sizeOf_spec] at hs
    simp only [Json.obj.sizeOf_spec]
    omega
  · have hs := List.sizeOf_lt_of_mem x.2
    simp only [Json.arr.sizeOf_spec]
    omega

/-- cache.rs `CacheService::normalize_params`: sort keys, then serialize. -/
def normalize_params (params : Json) : String :=
  match params with
  | .obj l =>
    Json.serialize (.obj ((List.insertionSort pairKeyLe l).map (fun p => (p.1, normalize_value p.2))))
  | .arr xs => Json.serialize (.arr (xs.map normalize_value))
  | v => Json.serialize v

/-- cache.rs `CacheService::create_cache_key`. -/
def create_cache_key (method : String) (params : Json) : String :=
  let params_str := match params with
    | .null => ""
    | _ => normalize_params params
  "multi-rpc:" ++ method ++ ":" ++ params_str

/-- cache.rs `CacheEntry`. -/
structure CacheEntry where
  value : Json
  expires_at : ℕ
  access_count : ℕ
  last_accessed : ℕ

/-- The local tier: key-to-entry map, modelled as a first-match list. -/
abbrev LocalCache := List (String × CacheEntry)

/-- config.rs `CacheConfig`, the fields the cache service reads. -/
structure CacheConfig where
  enabled : Bool
  default_ttl : ℕ
  method_ttls : List (String × ℕ)

/-- cache.rs `CacheService::get_ttl_for_method`. -/
def get_ttl_for_method (config : CacheConfig) (method : String) : ℕ :=
  match (config.method_ttls.find? (fun p => p.1 = method)).map Prod.snd with
  | some ttl => ttl
  | none => (get_rpc_cache_ttl method).getD config.default_ttl

/-- cache.rs `CacheService::evict_local_cache_entries`: drop expired entries,
then least-recently-used entries down to 8000 survivors. -/
def evict_local_cache_entries (cache : LocalCache) (now : ℕ) : LocalCache :=
  let to_remove := (cache.filter (fun p => p.2.expires_at ≤ now)).map Prod.fst
  let survivors := cache.filter (fun p => ¬ p.2.expires_at ≤ now)
  let to_remove :=
    if survivors.length > 8000 then
      let entries := List.insertionSort
        (fun p q : String × CacheEntry => p.2.last_accessed ≤ q.2.last_accessed) survivors
      let to_evict := survivors.length - 8000
      to_remove ++ (entries.take to_evict).map Prod.fst
    else to_remove
  cache.filter (fun p => ¬ to_remove.contains p.1)

/-- cache.rs `CacheService::store_in_local_cache` (HashMap::insert replaces). -/
def store_in_local_cache (config : CacheConfig) (cache : LocalCache)
    (key : String) (value : Json) (method : String) (now : ℕ) : LocalCache :=
  let ttl := get_ttl_for_method config method
  let cache := if cache.length ≥ 10000 then evict_local_cache_entries cache now else cache
  let entry : CacheEntry := ⟨value, now + ttl, 1, now⟩
  (key, entry) :: cache.filter (fun p => p.1 ≠ key)

/-- cache.rs `CacheService::get_from_local_cache`: unexpired hit bumps the
access counters; an expired entry is removed. -/
def get_from_local_cache (cache : LocalCache) (key : String) (now : ℕ) :
    Option Json × LocalCache :=
  match cache.find? (fun p => p.1 = key) with
  | some (_, entry) =>
    if now < entry.expires_at then
      let entry := { entry with access_count := entry.access_count + 1, last_accessed := now }
      (some entry.value, (key, entry) :: cache.filter (fun p => p.1 ≠ key))
    else
      (none, cache.filter (fun p => p.1 ≠ key))
  | none => (none, cache)

/-- cache.rs `CacheService::get` with the shared tier disconnected. -/
def cache_service_get (config : CacheConfig) (cache : LocalCache)
    (method : String) (params : Json) (now : ℕ) : Option Json × LocalCache :=
  if ¬ config.enabled ∨ ¬ is_method_cacheable method then (none, cache)
  else
    let cache_key := create_cache_key method params
    get_from_local_cache cache cache_key now

/-- cache.rs `CacheService::set` with the shared tier disconnected. -/
def cache_service_set (config : CacheConfig) (cache : LocalCache)
    (method : String) (params : Json) (response : Json) (now : ℕ) : LocalCache :=
  if ¬ config.enabled ∨ ¬ is_method_cacheable method then cache
  else
    let cache_key := create_cache_key method params
    store_in_local_cache config cache cache_key response method now

/-! endpoints.rs: circuit breaker and the endpoint manager's selection. -/

inductive EndpointStatus where
  | Healthy | Degraded | Unhealthy | Unknown
  deriving DecidableEq

inductive CircuitBreakerState where
  | Closed | Open | HalfOpen
  deriving DecidableEq

/-- endpoints.rs `CircuitBreaker`; `Instant` timestamps and `Duration`s in
whole seconds. -/
structure CircuitBreaker where
  state : CircuitBreakerState
  failure_count : ℕ
  last_failure : Option ℕ
  failure_threshold : ℕ
  timeout_duration : ℕ
  deriving DecidableEq

/-- endpoints.rs `CircuitBreaker::default` (threshold 5, open duration 30 s). -/
def CircuitBreaker.default : CircuitBreaker :=
  ⟨.Closed, 0, none, 5, 30⟩

/-- endpoints.rs `CircuitBreaker::record_success`. -/
def CircuitBreaker.record_success (cb : CircuitBreaker) : CircuitBreaker :=
  { cb with failure_count := 0, state := .Closed, last_failure := none }

/-- endpoints.rs `CircuitBreaker::record_failure` at instant `now`. -/
def CircuitBreaker.record_failure (cb : CircuitBreaker) (now : ℕ) : CircuitBreaker :=
  let cb := { cb with failure_count := cb.failure_count + 1, last_failure := some now }
  if cb.failure_threshold ≤ cb.failure_count then { cb with state := .Open } else cb

/-- endpoints.rs `CircuitBreaker::can_attempt` at instant `now`: returns the
admission verdict and the (possibly Open→HalfOpen transitioned) breaker. -/
def CircuitBreaker.can_attempt (cb : CircuitBreaker) (now : ℕ) : Bool × CircuitBreaker :=
  match cb.state with
  | .Closed => (true, cb)
  | .Open =>
    match cb.last_failure with
    | some last_failure =>
      if cb.timeout_duration < now - last_failure then
        (true, { cb with state := .HalfOpen })
      else (false, cb)
    | none => (false, cb)
  | .HalfOpen => (true, cb)

/-- One pool endpoint: the `EndpointInfo`, stats and connection-pool fields
read by selection (endpoints.rs `Endpoint`); ids are plain naturals. -/
structure Endpoint where
  id : ℕ
  status : EndpointStatus
  weight : ℕ
  priority : ℕ
  avg_response_time : ℚ
  active_connections : ℕ
  max_connections : ℕ
  deriving DecidableEq

inductive LoadBalancingStrategy where
  | RoundRobin | HealthBased | LeastLatency | Weighted
  deriving DecidableEq

/-- The `EndpointManager` state read and written by `select_endpoint`:
endpoint map (in iteration order), breaker map, round-robin cursor. -/
structure ManagerState where
  endpoints : List Endpoint
  circuit_breakers : List (ℕ × CircuitBreaker)
  strategy : LoadBalancingStrategy
  next_round_robin : ℕ
  deriving DecidableEq

/-- endpoints.rs `EndpointManager::is_endpoint_available`: health status and
connection-capacity check (the breaker is not consulted here). -/
def is_endpoint_available (e : Endpoint) : Bool :=
  (e.status = .Healthy ∨ e.status = .Degraded ∨ e.status = .Unknown) ∧
    e.active_connections < e.max_connections

/-- The `breakers.retain(|_, breaker| breaker.can_attempt())` step of
`select_endpoint`: breakers denying admission are removed from the map; the
retained ones keep any Open→HalfOpen transition `can_attempt` made. -/
def retain_breakers (breakers : List (ℕ × CircuitBreaker)) (now : ℕ) :
    List (ℕ × CircuitBreaker) :=
  breakers.filterMap (fun p =>
    let r := p.2.can_attempt now
    if r.1 then some (p.1, r.2) else none)

/-- Rust `Iterator::min_by` / `min_by_key` with `better e a` meaning `e`
strictly improves on `a`: first element with minimal key. -/
def rust_min_by {α : Type} (better : α → α → Bool) (l : List α) : Option α :=
  l.foldl (fun acc e =>
    match acc with
    | none => some e
    | some a => if better e a then some e else some a) none

/-- Rust `Iterator::min_by_key`: first element with minimal key. -/
def list_min_by_key {α β : Type} [LT β] [DecidableRel ((· < ·) : β → β → Prop)]
    (key : α → β) (l : List α) : Option α :=
  rust_min_by (fun e a => key e < key a) l

/-- Lexicographic strict order on the `(health, priority, time)` key triple
of `select_by_health`. -/
def tripleLt (a b : ℕ × ℕ × ℕ) : Prop :=
  a.1 < b.1 ∨ (a.1 = b.1 ∧ (a.2.1 < b.2.1 ∨ (a.2.1 = b.2.1 ∧ a.2.2 < b.2.2)))

instance : DecidableRel tripleLt := fun a b => by unfold tripleLt; infer_instance

instance : LT (ℕ × ℕ × ℕ) := ⟨tripleLt⟩

instance : DecidableRel ((· < ·) : ℕ × ℕ × ℕ → ℕ × ℕ × ℕ → Prop) :=
  fun a b => inferInstanceAs (Decidable (tripleLt a b))

/-- endpoints.rs `select_round_robin` (the breaker map was already updated by
the caller); returns the chosen id and the new cursor. -/
def select_round_robin (endpoints : List Endpoint) (next_round_robin : ℕ) :
    Except AppError (ℕ × ℕ) :=
  let healthy_endpoints := endpoints.filter is_endpoint_available
  if h : healthy_endpoints.length = 0 then .error .AllEndpointsUnhealthy
  else
    let next_idx := (next_round_robin + 1) % healthy_endpoints.length
    .ok ((healthy_endpoints.get ⟨next_idx, Nat.mod_lt _ (Nat.pos_of_ne_zero h)⟩).id, next_idx)

/-- The `(health rank, priority, (avg_response_time * 100) as u64)` sort key
of `select_by_health`. -/
def health_selection_key (e : Endpoint) : ℕ × ℕ × ℕ :=
  (match e.status with
   | .Healthy => 0
   | .Degraded => 1
   | .Unknown => 2
   | .Unhealthy => 3,
   e.priority, (e.avg_response_time * 100).floor.toNat)

/-- endpoints.rs `select_by_health`: minimize `(health rank, priority,
(avg_response_time * 100) as u64)` over available endpoints whose breaker
entry, if still present, is not Open. -/
def select_by_health (endpoints : List Endpoint)
    (circuit_breakers : List (ℕ × CircuitBreaker)) : Except AppError ℕ :=
  let candidates := endpoints.filter (fun e =>
    is_endpoint_available e &&
      match (circuit_breakers.find? (fun p => p.1 = e.id)).map Prod.snd with
      | some cb => decide (cb.state ≠ .Open)
      | none => true)
  match list_min_by_key health_selection_key candidates with
  | some e => .ok e.id
  | none => .error .AllEndpointsUnhealthy

/-- Rust `Iterator::min_by` on `partial_cmp` of response times: first element
with minimal time. -/
def list_min_by_time (l : List Endpoint) : Option Endpoint :=
  rust_min_by (fun e a => e.avg_response_time < a.avg_response_time) l

/-- endpoints.rs `select_by_latency`. -/
def select_by_latency (endpoints : List Endpoint) : Except AppError ℕ :=
  match list_min_by_time (endpoints.filter is_endpoint_available) with
  | some e => .ok e.id
  | none => .error .AllEndpointsUnhealthy

/-- The accumulation loop of `select_weighted`: walk the healthy endpoints
adding weights until the rolling sum exceeds `random_weight`. -/
def weighted_loop (healthy : List Endpoint) (current_weight random_weight : ℕ) :
    Option Endpoint :=
  match healthy with
  | [] => none
  | e :: rest =>
    let current_weight := current_weight + e.weight
    if random_weight < current_weight then some e
    else weighted_loop rest current_weight random_weight

/-- endpoints.rs `select_weighted` with the nanosecond counter value supplied
as `rand_nanos` (the source reads `Instant::now().elapsed().as_nanos()`);
returns the chosen id and the new round-robin cursor. -/
def select_weighted (endpoints : List Endpoint) (next_round_robin : ℕ)
    (rand_nanos : ℕ) : Except AppError (ℕ × ℕ) :=
  let healthy_endpoints := endpoints.filter is_endpoint_available
  if healthy_endpoints.length = 0 then .error .AllEndpointsUnhealthy
  else
    let total_weight := (healthy_endpoints.map Endpoint.weight).sum
    if total_weight = 0 then select_round_robin endpoints next_round_robin
    else
      let random_weight := rand_nanos % total_weight
      match weighted_loop healthy_endpoints 0 random_weight with
      | some e => .ok (e.id, next_round_robin)
      | none =>
        match endpoints.find? is_endpoint_available with
        | some e => .ok (e.id, next_round_robin)
        | none => .error .AllEndpointsUnhealthy

/-- endpoints.rs `EndpointManager::select_endpoint`: retain admissible
breakers (dropping the rest from the map), then dispatch on the strategy.
Returns the selection verdict and the updated manager state. -/
def select_endpoint (st : ManagerState) (now : ℕ) (rand_nanos : ℕ) :
    Except AppError ℕ × ManagerState :=
  let breakers := retain_breakers st.circuit_breakers now
  let st := { st with circuit_breakers := breakers }
  match st.strategy with
  | .RoundRobin =>
    match select_round_robin st.endpoints st.next_round_robin with
    | .ok (id, next_idx) => (.ok id, { st with next_round_robin := next_idx })
    | .error e => (.error e, st)
  | .HealthBased => (select_by_health st.endpoints breakers, st)
  | .LeastLatency => (select_by_latency st.endpoints, st)
  | .Weighted =>
    match select_weighted st.endpoints st.next_round_robin rand_nanos with
    | .ok (id, next_idx) => (.ok id, { st with next_round_robin := next_idx })
    | .error e => (.error e, st)

/-! retry.rs: RetryPolicy delay computation.  Durations are rationals in
seconds; `Duration::from_secs_f64` panics on a negative argument, modelled
as `none`. -/

/-- retry.rs `RetryConfig`, the fields `calculate_delay` reads. -/
structure RetryConfig where
  initial_delay : ℚ
  max_delay : ℚ
  exponential_base : ℚ
  jitter_factor : ℚ

/-- retry.rs `RetryConfig::default` (100 ms initial, 30 s max, base 2,
jitter 0.1). -/
def RetryConfig.default : RetryConfig :=
  ⟨1/10, 30, 2, 1/10⟩

inductive RetryStrategy where
  | Exponential | Linear | Fixed | Fibonacci
  | Custom : (ℕ → ℚ) → RetryStrategy

/-- retry.rs `fibonacci` (fib 0 = 0, fib 1 = 1, iterative from 2). -/
def fibonacci : ℕ → ℕ
  | 0 => 0
  | 1 => 1
  | n + 2 => fibonacci (n + 1) + fibonacci n

/-- `Duration::from_secs_f64`: panics (`none`) when the seconds value is
negative. -/
def duration_from_secs_f64 (secs : ℚ) : Option ℚ :=
  if secs < 0 then none else some secs

/-- retry.rs `RetryPolicy::calculate_delay` for 1-based `attempt`, with the
uniform jitter draw supplied as `jitter_sample` (the source samples
`gen_range(-jitter_range..=jitter_range)`); `none` models a panic. -/
def calculate_delay (strategy : RetryStrategy) (config : RetryConfig)
    (attempt : ℕ) (jitter_sample : ℚ) : Option ℚ := do
  let base_delay ← match strategy with
    | .Exponential =>
      duration_from_secs_f64 (config.initial_delay * config.exponential_base ^ (attempt - 1))
    | .Linear => some (config.initial_delay * attempt)
    | .Fixed => some config.initial_delay
    | .Fibonacci => some (config.initial_delay * fibonacci attempt)
    | .Custom f => some (f attempt)
  let jitter ←
    if 0 < config.jitter_factor then duration_from_secs_f64 jitter_sample
    else some 0
  let final_delay := base_delay + jitter
  some (if config.max_delay < final_delay then config.max_delay
        else if final_delay < 0 then 0 else final_delay)

/-! router.rs: try_request, the retry loop, batch handling and the single
request pipeline.  One dispatch to an endpoint is abstracted by its
observable outcome. -/

/-- The outcome of one upstream dispatch inside `try_request`. -/
inductive DispatchOutcome where
  | transportFailure : DispatchOutcome
  | requestTimeout : DispatchOutcome
  | httpFailure : DispatchOutcome
  | unparseableBody : DispatchOutcome
  | reply : Json → DispatchOutcome

/-- The error-code classification of `try_request`: a parsed body counts as
an endpoint success unless it carries an error envelope whose code is not
−32601/−32602 (`unwrap_or(0)` for a missing or non-integer code). -/
def response_is_success (body : Json) : Bool :=
  match body.getField "error" with
  | some err =>
    let error_code := ((err.getField "code").bind Json.asI64).getD 0
    if error_code = -32601 then true
    else if error_code = -32602 then true
    else if error_code = -32700 then false
    else if error_code = -32600 then false
    else false
  | none => true

/-- router.rs `RpcRouter::try_request` on a dispatch outcome: the call result
together with the success flag recorded into the endpoint stats (`none` when
the path returns before `update_endpoint_stats`, i.e. on a body that fails
JSON parsing). -/
def try_request (outcome : DispatchOutcome) : Except AppError Json × Option Bool :=
  match outcome with
  | .transportFailure => (.error .NetworkError, some false)
  | .requestTimeout => (.error .RequestTimeout, some false)
  | .httpFailure => (.error (.EndpointError "HTTP error"), some false)
  | .unparseableBody => (.error .JsonError, none)
  | .reply body => (.ok body, some (response_is_success body))

/-- The `for attempt in 0..=max_retries` loop of `handle_standard_request`:
`remaining` is `max_retries − attempt`. -/
def handle_standard_loop (outcomes : ℕ → DispatchOutcome) (attempt : ℕ) :
    ℕ → Except AppError Json
  | 0 => (try_request (outcomes attempt)).1
  | remaining + 1 =>
    match (try_request (outcomes attempt)).1 with
    | .ok response => .ok response
    | .error _ => handle_standard_loop outcomes (attempt + 1) remaining

/-- router.rs `RpcRouter::handle_standard_request`: up to `max_retries + 1`
attempts with exponential sleeps between them, attempt `i` observing
`outcomes i`. -/
def handle_standard_request (max_retries : ℕ) (outcomes : ℕ → DispatchOutcome) :
    Except AppError Json :=
  handle_standard_loop outcomes 0 max_retries

/-- router.rs `RpcRouter::should_use_consensus`. -/
def should_use_consensus (method : String) : Bool :=
  method = "sendTransaction" ∨ method = "getAccountInfo" ∨ method = "getBalance" ∨
    method = "getSignatureStatuses" ∨ method = "getTransaction"

/-- The `−32603` substitute body built for a failed batch item
(router.rs `handle_batch_request`, `Ok(Err(e))` arm). -/
def batch_error_response (e : AppError) : Json :=
  .obj [("jsonrpc", .str "2.0"), ("id", .null),
        ("error", .obj [("code", .num (-32603)), ("message", .str "Internal error"),
                        ("data", .str e.toMessage)])]

/-- router.rs `RpcRouter::handle_batch_request` with the per-item pipeline
abstracted as `single` (tasks are awaited in spawn order, which preserves
input order; a task in this model never panics, so the `JoinError` arm is
unreachable). -/
def handle_batch_request (single : Json → Except AppError Json) (payload : Json) :
    Except AppError Json :=
  match payload with
  | .arr requests =>
    if requests.length = 0 then .error (.InvalidRequest "Empty batch request")
    else if 100 < requests.length then .error (.InvalidRequest "Batch size too large")
    else .ok (.arr (requests.map (fun request =>
      match single request with
      | .ok response => response
      | .error e => batch_error_response e)))
  | _ => .error (.InvalidRequest "Invalid batch request")

/-- router.rs `RpcRouter::handle_single_request`: validate, consult the
cache, dispatch through the consensus or standard path (each abstracted by
its result), then cache the response.  Returns the reply and the new local
cache. -/
def handle_single_request (config : CacheConfig)
    (dispatch_consensus dispatch_standard : RpcRequest → Except AppError Json)
    (payload : Json) (cache : LocalCache) (now : ℕ) :
    Except AppError (Json × LocalCache) :=
  match validate_rpc_request payload with
  | .error e => .error (.InvalidRequest e)
  | .ok rpc_request =>
    let cache_params := rpc_request.params.getD .null
    match cache_service_get config cache rpc_request.method cache_params now with
    | (some cached_response, cache) => .ok (cached_response, cache)
    | (none, cache) =>
      let requires_consensus := should_use_consensus rpc_request.method
      let dispatched :=
        if requires_consensus then dispatch_consensus rpc_request
        else dispatch_standard rpc_request
      match dispatched with
      | .error e => .error e
      | .ok response =>
        let cache := cache_service_set config cache rpc_request.method cache_params response now
        .ok (response, cache)

/-! consensus.rs: ConsensusService reconciliation and execute_consensus. -/

/-- config.rs `ConsensusConfig`, the fields `execute_consensus` reads. -/
structure ConsensusConfig where
  min_confirmations : ℕ
  consensus_threshold : ℚ

/-- Rust `Iterator::max_by_key`: last element with maximal key. -/
def list_max_by_count {α : Type} (l : List (α × ℕ)) : Option (α × ℕ) :=
  l.foldl (fun acc e =>
    match acc with
    | none => some e
    | some a => if a.2 ≤ e.2 then some e else some a) none

/-- Group equal elements, preserving first-occurrence order: the grouping of
`response_counts: HashMap<String, (Value, usize)>` keyed by `key`, with the
first grouped element kept as the representative. -/
def group_counts (key : Json → String) (responses : List Json) :
    List (Json × ℕ) :=
  responses.foldl (fun acc response =>
    let k := key response
    if acc.any (fun p => key p.1 = k) then
      acc.map (fun p => if key p.1 = k then (p.1, p.2 + 1) else p)
    else acc ++ [(response, 1)]) []

/-- consensus.rs `ConsensusService::consensus_exact_match`: majority on the
serialized reply; fails `ConsensusError` below the threshold. -/
def consensus_exact_match (threshold : ℚ) (responses : List Json) :
    Except AppError (Json × ℚ) :=
  match list_max_by_count (group_counts Json.serialize responses) with
  | none => .error .ConsensusError
  | some (consensus_response, count) =>
    let confidence : ℚ := count / responses.length
    if confidence < threshold then .error .ConsensusError
    else .ok (consensus_response, confidence)

/-- consensus.rs `ConsensusService::extract_hash_from_response`. -/
def extract_hash_from_response (response : Json) : String :=
  match response.getField "result" with
  | some (.str hash_str) => hash_str
  | some (.obj fields) =>
    match (Json.obj fields).getField "blockhash" with
    | some (.str blockhash) => blockhash
    | _ =>
      match (Json.obj fields).getField "value" with
      | some (.str value) => value
      | _ => Json.serialize response
  | _ => Json.serialize response

/-- consensus.rs `ConsensusService::consensus_hash_based`. -/
def consensus_hash_based (threshold : ℚ) (responses : List Json) :
    Except AppError (Json × ℚ) :=
  match list_max_by_count (group_counts extract_hash_from_response responses) with
  | none => .error .ConsensusError
  | some (consensus_response, count) =>
    let confidence : ℚ := count / responses.length
    if confidence < threshold then .error .ConsensusError
    else .ok (consensus_response, confidence)

/-- The numeric extraction of `consensus_numeric_tolerance`: `result` as u64
or else f64; non-numeric replies are skipped. -/
def extract_numeric_values (responses : List Json) : List ℚ :=
  responses.filterMap (fun response =>
    match response.getField "result" with
    | some r =>
      match r.asU64 with
      | some n => some (n : ℚ)
      | none => r.asF64
    | none => none)

/-- `f64::round` (half away from zero) on a rational. -/
def f64_round (q : ℚ) : ℤ :=
  if 0 ≤ q then ⌊q + 1/2⌋ else -⌊-q + 1/2⌋

/-- consensus.rs `ConsensusService::consensus_numeric_tolerance`: sort the
numeric results, take the median (mean of the central pair for even counts),
count values within the tolerance of the median; the canonical reply is the
first whose u64 `result` is within tolerance, with a synthesized
`{"result": median.round()}` fallback. -/
def consensus_numeric_tolerance (threshold : ℚ) (responses : List Json)
    (tolerance : ℚ) : Except AppError (Json × ℚ) :=
  let numeric_values := extract_numeric_values responses
  if numeric_values.length = 0 then .error .ConsensusError
  else
    let sorted := List.insertionSort (· ≤ ·) numeric_values
    let median :=
      if sorted.length % 2 = 0 then
        (sorted.getD (sorted.length / 2 - 1) 0 + sorted.getD (sorted.length / 2) 0) / 2
      else sorted.getD (sorted.length / 2) 0
    let within_tolerance := (sorted.filter (fun v => |v - median| ≤ tolerance)).length
    let confidence : ℚ := within_tolerance / numeric_values.length
    if confidence < threshold then .error .ConsensusError
    else
      let target_value := (f64_round median).toNat
      let consensus_response :=
        match responses.find? (fun response =>
          match (response.getField "result").bind Json.asU64 with
          | some v => decide (|(v : ℚ) - median| ≤ tolerance)
          | none => false) with
        | some response => response
        | none => .obj [("result", .num target_value)]
      .ok (consensus_response, confidence)

/-- consensus.rs `ConsensusService::consensus_majority_vote` (delegates to
exact match). -/
def consensus_majority_vote (threshold : ℚ) (responses : List Json) :
    Except AppError (Json × ℚ) :=
  consensus_exact_match threshold responses

/-- consensus.rs `ConsensusService::analyze_consensus`. -/
def analyze_consensus (config : ConsensusConfig) (method : String)
    (responses : List Json) : Except AppError (Json × ℚ) :=
  if responses.length = 0 then .error .InsufficientConfirmations
  else if method = "getBalance" ∨ method = "getAccountInfo" then
    consensus_exact_match config.consensus_threshold responses
  else if method = "getSlot" ∨ method = "getBlockHeight" then
    consensus_numeric_tolerance config.consensus_threshold responses 2
  else if method = "getSignatureStatuses" then
    consensus_majority_vote config.consensus_threshold responses
  else if method = "getBlock" ∨ method = "getRecentBlockhash" ∨
      method = "getLatestBlockhash" then
    consensus_hash_based config.consensus_threshold responses
  else consensus_exact_match config.consensus_threshold responses

/-- consensus.rs `ConsensusResponse`, the fields `execute_consensus` fills. -/
structure ConsensusResponse where
  response : Json
  confidence : ℚ
  endpoint_count : ℕ
  consensus_achieved : Bool

/-- consensus.rs `ConsensusService::execute_consensus`: each fanned-out
client call is abstracted by its outcome (`ok` reply or error string);
`min_confirmations` is clamped to the number of clients, short counts fail
`InsufficientConfirmations`, and the analysis result is wrapped with
`consensus_achieved = confidence ≥ threshold`. -/
def execute_consensus (config : ConsensusConfig) (method : String)
    (outcomes : List (Except String Json)) : Except AppError ConsensusResponse :=
  let min_confirmations := min config.min_confirmations outcomes.length
  let responses := outcomes.filterMap (fun o =>
    match o with
    | .ok response => some response
    | .error _ => none)
  if responses.length < min_confirmations then .error .InsufficientConfirmations
  else
    match analyze_consensus config method responses with
    | .error e => .error e
    | .ok (response, confidence) =>
      .ok ⟨response, confidence, outcomes.length,
        decide (config.consensus_threshold ≤ confidence)⟩

/-! Auxiliary definitions used by the theorems below. -/

/-- A run of consecutive recorded failures at the given instants. -/
def record_failures (cb : CircuitBreaker) (times : List ℕ) : CircuitBreaker :=
  times.foldl CircuitBreaker.record_failure cb

/-- Cumulative weight of the first `i` endpoints, the rolling sum the
`select_weighted` loop has accumulated before reaching index `i`. -/
def take_weight_sum (healthy : List Endpoint) (i : ℕ) : ℕ :=
  ((healthy.take i).map Endpoint.weight).sum

/-- Two JSON texts denote the same JSON value: equal scalars, pointwise-same
arrays, and objects that bind the same keys (each at most once) to same
values, irrespective of field order. -/
inductive SameJson : Json → Json → Prop where
  | null : SameJson .null .null
  | bool (b : Bool) : SameJson (.bool b) (.bool b)
  | num (q : ℚ) : SameJson (.num q) (.num q)
  | str (s : String) : SameJson (.str s) (.str s)
  | arr {xs ys : List Json} (hlen : xs.length = ys.length)
      (h : ∀ i v w, xs.get? i = some v → ys.get? i = some w → SameJson v w) :
      SameJson (.arr xs) (.arr ys)
  | obj {l1 l2 : List (String × Json)}
      (h1 : (l1.map Prod.fst).Nodup) (h2 : (l2.map Prod.fst).Nodup)
      (hk : ∀ k, k ∈ l1.map Prod.fst ↔ k ∈ l2.map Prod.fst)
      (hv : ∀ k v w, (k, v) ∈ l1 → (k, w) ∈ l2 → SameJson v w) :
      SameJson (.obj l1) (.obj l2)

/-- Strict version of `pairKeyLe`. -/
def pairKeyLt (p q : String × Json) : Prop := p.1 < q.1

instance : IsAntisymm (String × Json) pairKeyLt :=
  ⟨fun _ _ h1 h2 => absurd h1 (lt_asymm h2)⟩

/-! Theorems settling the claims. -/

/-- C3: the claim states that computing the retry delay totally succeeds for
every attempt n ≥ 1 and jitterFactor ≥ 0, yielding the strategy's base delay
plus a uniform jitter from [−jitterFactor·delay, +jitterFactor·delay]
clamped to [0, maxDelay].  The code instead feeds the raw jitter draw to
`Duration::from_secs_f64`, which panics on any negative draw — reaching the
`< 0` clamp branch is impossible.  With the default configuration (initial
100 ms, base 2, jitterFactor 0.1), attempt 1 and the in-range draw −5 ms
panic (modelled `none`), while the non-negative draw +5 ms at attempt 2
yields base + jitter as the claim describes. -/
theorem calculate_delay_panics_on_negative_jitter :
    |(-1/200 : ℚ)| ≤ RetryConfig.default.jitter_factor *
        (RetryConfig.default.initial_delay * RetryConfig.default.exponential_base ^ (1 - 1)) ∧
    calculate_delay .Exponential RetryConfig.default 1 (-1/200) = none ∧
    calculate_delay .Exponential RetryConfig.default 2 (1/200) = some (1/5 + 1/200) := by
  refine ⟨by norm_num [RetryConfig.default, abs_le], ?_, ?_⟩ <;>
    norm_num [calculate_delay, duration_from_secs_f64, RetryConfig.default]

/-- `record_failure` bumps the count, stamps the failure instant, and leaves
the configured threshold and open duration unchanged. -/
theorem record_failure_fields (cb : CircuitBreaker) (now : ℕ) :
    (cb.record_failure now).failure_count = cb.failure_count + 1 ∧
    (cb.record_failure now).failure_threshold = cb.failure_threshold ∧
    (cb.record_failure now).timeout_duration = cb.timeout_duration ∧
    (cb.record_failure now).last_failure = some now := by
  simp only [CircuitBreaker.record_failure]
  split <;> simp

/-- A failure run adds its length to the count and preserves the breaker
configuration. -/
theorem record_failures_fields (ts : List ℕ) (cb : CircuitBreaker) :
    (record_failures cb ts).failure_count = cb.failure_count + ts.length ∧
    (record_failures cb ts).failure_threshold = cb.failure_threshold ∧
    (record_failures cb ts).timeout_duration = cb.timeout_duration := by
  induction ts generalizing cb with
  | nil => simp [record_failures]
  | cons x xs ih =>
    obtain ⟨h1, h2, h3, _⟩ := record_failure_fields cb x
    obtain ⟨g1, g2, g3⟩ := ih (cb.record_failure x)
    simp only [record_failures, List.foldl_cons] at g1 g2 g3 ⊢
    rw [List.length_cons]
    exact ⟨by rw [g1, h1]; omega, by rw [g2, h2], by rw [g3, h3]⟩

/-- C8: after `threshold` consecutive recorded failures the breaker is Open
with the last failure stamped; every admission query while the open duration
has not yet elapsed is rejected and leaves the breaker unchanged; once it has
elapsed the next admission query admits and moves the breaker to HalfOpen,
and a recorded success then returns it to Closed with the failure count
reset to 0. -/
theorem circuit_breaker_trips_then_recovers (cb : CircuitBreaker) (ts : List ℕ) (t : ℕ)
    (hthr : cb.failure_threshold ≤ ts.length + 1) :
    (record_failures cb (ts ++ [t])).state = .Open ∧
    (record_failures cb (ts ++ [t])).last_failure = some t ∧
    (∀ now, now - t ≤ (record_failures cb (ts ++ [t])).timeout_duration →
      (record_failures cb (ts ++ [t])).can_attempt now =
        (false, record_failures cb (ts ++ [t]))) ∧
    (∀ now, (record_failures cb (ts ++ [t])).timeout_duration < now - t →
      ((record_failures cb (ts ++ [t])).can_attempt now).1 = true ∧
      ((record_failures cb (ts ++ [t])).can_attempt now).2.state = .HalfOpen ∧
      (((record_failures cb (ts ++ [t])).can_attempt now).2.record_success).state = .Closed ∧
      (((record_failures cb (ts ++ [t])).can_attempt now).2.record_success).failure_count = 0)
    := by
  have hrun := record_failures_fields ts cb
  have happ : record_failures cb (ts ++ [t]) = (record_failures cb ts).record_failure t := by
    simp [record_failures, List.foldl_append]
  have hopen : (record_failures cb (ts ++ [t])).state = .Open ∧
      (record_failures cb (ts ++ [t])).last_failure = some t ∧
      (record_failures cb (ts ++ [t])).timeout_duration = cb.timeout_duration := by
    rw [happ]
    simp only [CircuitBreaker.record_failure]
    have : (record_failures cb ts).failure_threshold ≤ (record_failures cb ts).failure_count + 1 := by
      omega
    rw [if_pos this]
    exact ⟨rfl, rfl, hrun.2.2⟩
  obtain ⟨hst, hlf, htd⟩ := hopen
  refine ⟨hst, hlf, ?_, ?_⟩
  · intro now hle
    simp only [CircuitBreaker.can_attempt, hst, hlf]
    rw [if_neg (by omega)]
  · intro now hgt
    simp only [CircuitBreaker.can_attempt, hst, hlf]
    rw [if_pos (by omega)]
    simp [CircuitBreaker.record_success]

/-- Witness for C8 at the default breaker and a concrete five-failure run. -/
theorem circuit_breaker_trips_then_recovers_witness :
    CircuitBreaker.default.failure_threshold ≤ [1, 2, 3, 4].length + 1 ∧
    (record_failures CircuitBreaker.default ([1, 2, 3, 4] ++ [5])).state = .Open :=
  ⟨by decide, (circuit_breaker_trips_then_recovers CircuitBreaker.default
    [1, 2, 3, 4] 5 (by decide)).1⟩

/-- The retry loop returns the first parsed reply verbatim: if every dispatch
before relative index `k` failed without a parsed body and the dispatch at
`k` parsed, the loop stops there. -/
theorem handle_standard_loop_first_reply (outcomes : ℕ → DispatchOutcome)
    (k : ℕ) (attempt remaining : ℕ) (body : Json)
    (hk : k ≤ remaining) (hreply : outcomes (attempt + k) = .reply body)
    (hbefore : ∀ i, i < k → ∀ b, outcomes (attempt + i) ≠ .reply b) :
    handle_standard_loop outcomes attempt remaining = .ok body := by
  induction k generalizing attempt remaining with
  | zero =>
    rw [Nat.add_zero] at hreply
    cases remaining with
    | zero => simp [handle_standard_loop, try_request, hreply]
    | succ r => simp [handle_standard_loop, try_request, hreply]
  | succ n ih =>
    cases remaining with
    | zero => omega
    | succ r =>
      have h0 := hbefore 0 (Nat.succ_pos n)
      rw [Nat.add_zero] at h0
      have step : handle_standard_loop outcomes attempt (r + 1) =
          handle_standard_loop outcomes (attempt + 1) r := by
        cases hout : outcomes attempt with
        | reply b => exact absurd hout (h0 b)
        | transportFailure => simp [handle_standard_loop, try_request, hout]
        | requestTimeout => simp [handle_standard_loop, try_request, hout]
        | httpFailure => simp [handle_standard_loop, try_request, hout]
        | unparseableBody => simp [handle_standard_loop, try_request, hout]
      rw [step]
      refine ih (attempt + 1) r (by omega) ?_ ?_
      · rw [show attempt + 1 + n = attempt + (n + 1) by omega]
        exact hreply
      · intro i hi b
        rw [show attempt + 1 + i = attempt + (i + 1) by omega]
        exact hbefore (i + 1) (by omega) b

/-- C4 (amended): the router never retries on an upstream JSON-RPC error
envelope.  The first attempt whose dispatch yields any parsed JSON body —
error envelope or not, whatever its code — terminates the loop with that
body propagated to the caller; only transport failures, timeouts, non-2xx
HTTP replies and unparseable bodies are retried.  The {−32601, −32602}
classification affects only the success flag recorded into the endpoint
stats for that attempt. -/
theorem handle_standard_request_returns_first_parsed_reply
    (max_retries k : ℕ) (outcomes : ℕ → DispatchOutcome) (body : Json)
    (hk : k ≤ max_retries) (hreply : outcomes k = .reply body)
    (hbefore : ∀ i, i < k → ∀ b, outcomes i ≠ .reply b) :
    handle_standard_request max_retries outcomes = .ok body ∧
    (try_request (outcomes k)).2 = some (response_is_success body) := by
  constructor
  · refine handle_standard_loop_first_reply outcomes k 0 max_retries body hk ?_ ?_
    · rw [Nat.zero_add]; exact hreply
    · intro i hi b; rw [Nat.zero_add]; exact hbefore i hi b
  · rw [hreply]; rfl

/-- Witness for C4 at a concrete sequence: one transport failure, then a
parsed reply carrying a −32000 error envelope, propagated as the result. -/
theorem handle_standard_request_returns_first_parsed_reply_witness :
    (1 ≤ 3 ∧
      (fun i => if i = 0 then DispatchOutcome.transportFailure
        else .reply (.obj [("error", .obj [("code", .num (-32000)),
          ("message", .str "Server error")])])) 1 =
        .reply (.obj [("error", .obj [("code", .num (-32000)),
          ("message", .str "Server error")])])) ∧
    handle_standard_request 3 (fun i => if i = 0 then DispatchOutcome.transportFailure
        else .reply (.obj [("error", .obj [("code", .num (-32000)),
          ("message", .str "Server error")])])) =
      .ok (.obj [("error", .obj [("code", .num (-32000)),
        ("message", .str "Server error")])]) :=
  ⟨⟨by decide, rfl⟩,
    (handle_standard_request_returns_first_parsed_reply 3 1 _ _ (by decide) rfl
      (by
        intro i hi b
        interval_cases i
        simp)).1⟩

/-- C4 counterexample: a JSON-RPC error envelope with code −32000 — not in
{−32601, −32602}, so the claim says the router retries — is instead returned
to the caller as the final result of the very first attempt, although the
second attempt would have produced a success reply. -/
theorem rpc_error_minus_32000_not_retried :
    handle_standard_request 3 (fun i => if i = 0
        then .reply (.obj [("jsonrpc", .str "2.0"), ("id", .num 1),
          ("error", .obj [("code", .num (-32000)), ("message", .str "Server error")])])
        else .reply (.obj [("jsonrpc", .str "2.0"), ("id", .num 1), ("result", .str "ok")]))
      = .ok (.obj [("jsonrpc", .str "2.0"), ("id", .num 1),
          ("error", .obj [("code", .num (-32000)), ("message", .str "Server error")])]) ∧
    ((Json.obj [("jsonrpc", .str "2.0"), ("id", .num 1),
        ("error", .obj [("code", .num (-32000)), ("message", .str "Server error")])]).getField
        "error").bind (fun err => (err.getField "code").bind Json.asI64) = some (-32000) ∧
    (-32000 : ℤ) ≠ -32601 ∧ (-32000 : ℤ) ≠ -32602 := by
  refine ⟨rfl, ?_, by decide, by decide⟩
  rfl

/-- C5 (amended): a well-formed batch of 1 to 100 requests always succeeds
with an array of the same length in which `response[i]` is the outcome of
processing `request[i]`; an item whose processing raised is substituted by
the standard −32603 Internal error reply — whose `id` is `null`, not an echo
of the item's id. -/
theorem handle_batch_request_order_and_substitution
    (single : Json → Except AppError Json) (requests : List Json)
    (h1 : 1 ≤ requests.length) (h2 : requests.length ≤ 100) :
    ∃ responses : List Json,
      handle_batch_request single (.arr requests) = .ok (.arr responses) ∧
      responses.length = requests.length ∧
      ∀ i (hi : i < requests.length),
        responses[i]? = some (match single requests[i] with
          | .ok response => response
          | .error e => batch_error_response e) := by
  refine ⟨requests.map (fun request => match single request with
    | .ok response => response
    | .error e => batch_error_response e), ?_, List.length_map _ _, ?_⟩
  · simp only [handle_batch_request]
    rw [if_neg (by omega), if_neg (by omega)]
  · intro i hi
    rw [List.getElem?_map, List.getElem?_eq_getElem hi]
    rfl

/-- Witness for C5: a one-element batch whose item raises a network error is
answered by a one-element array holding the −32603 substitute. -/
theorem handle_batch_request_order_and_substitution_witness :
    (1 ≤ [Json.null].length ∧ [Json.null].length ≤ 100) ∧
    ∃ responses : List Json,
      handle_batch_request (fun _ => .error .NetworkError) (.arr [Json.null]) =
        .ok (.arr responses) ∧
      responses.length = [Json.null].length ∧
      ∀ i (hi : i < [Json.null].length),
        responses[i]? = some (match (fun _ : Json => (.error .NetworkError :
            Except AppError Json)) [Json.null][i] with
          | .ok response => response
          | .error e => batch_error_response e) :=
  ⟨⟨by decide, by decide⟩,
    handle_batch_request_order_and_substitution (fun _ => .error .NetworkError)
      [Json.null] (by decide) (by decide)⟩

/-- C5 counterexample: a batch item with `id` 7 and an invalid `method`
field is substituted by a −32603 reply whose `id` is `null`; the claim says
the substitute's id echoes the item's id (7). -/
theorem batch_error_reply_id_null_not_echoed :
    (handle_batch_request (fun request => (handle_single_request ⟨true, 60, []⟩
        (fun _ => .error .NetworkError) (fun _ => .error .NetworkError) request [] 0).map
          Prod.fst)
      (.arr [.obj [("jsonrpc", .str "2.0"), ("id", .num 7), ("method", .num 5)]])
      = .ok (.arr [batch_error_response (.InvalidRequest "Missing or invalid method field")])) ∧
    (batch_error_response (.InvalidRequest "Missing or invalid method field")).getField "id"
      = some .null ∧
    (Json.obj [("jsonrpc", .str "2.0"), ("id", .num 7), ("method", .num 5)]).getField "id"
      = some (.num 7) ∧
    Json.null ≠ Json.num 7 := by
  exact ⟨rfl, rfl, rfl, fun h => Json.noConfusion h⟩

/-- Exact-match reconciliation only succeeds at or above the threshold. -/
theorem consensus_exact_match_ok_threshold (t : ℚ) (responses : List Json)
    (v : Json) (c : ℚ) (h : consensus_exact_match t responses = .ok (v, c)) :
    t ≤ c := by
  unfold consensus_exact_match at h
  cases hm : list_max_by_count (group_counts Json.serialize responses) with
  | none => rw [hm] at h; exact absurd h (by simp)
  | some p =>
    obtain ⟨cr, count⟩ := p
    rw [hm] at h
    dsimp only at h
    split at h
    · exact absurd h (by simp)
    · rename_i hlt
      simp only [Except.ok.injEq, Prod.mk.injEq] at h
      rw [← h.2]
      exact le_of_not_lt hlt

/-- Hash-based reconciliation only succeeds at or above the threshold. -/
theorem consensus_hash_based_ok_threshold (t : ℚ) (responses : List Json)
    (v : Json) (c : ℚ) (h : consensus_hash_based t responses = .ok (v, c)) :
    t ≤ c := by
  unfold consensus_hash_based at h
  cases hm : list_max_by_count (group_counts extract_hash_from_response responses) with
  | none => rw [hm] at h; exact absurd h (by simp)
  | some p =>
    obtain ⟨cr, count⟩ := p
    rw [hm] at h
    dsimp only at h
    split at h
    · exact absurd h (by simp)
    · rename_i hlt
      simp only [Except.ok.injEq, Prod.mk.injEq] at h
      rw [← h.2]
      exact le_of_not_lt hlt

/-- Numeric-tolerance reconciliation only succeeds at or above the
threshold. -/
theorem consensus_numeric_tolerance_ok_threshold (t : ℚ) (responses : List Json)
    (tolerance : ℚ) (v : Json) (c : ℚ)
    (h : consensus_numeric_tolerance t responses tolerance = .ok (v, c)) :
    t ≤ c := by
  simp only [consensus_numeric_tolerance] at h
  split at h
  · exact absurd h (by simp)
  · split at h <;>
    · split at h
      · exact absurd h (by simp)
      · rename_i hlt
        simp only [Except.ok.injEq, Prod.mk.injEq] at h
        rw [← h.2]
        exact le_of_not_lt hlt

/-- Every reconciliation strategy dispatched by `analyze_consensus` succeeds
only at or above the configured threshold. -/
theorem analyze_consensus_ok_threshold (config : ConsensusConfig) (method : String)
    (responses : List Json) (v : Json) (c : ℚ)
    (h : analyze_consensus config method responses = .ok (v, c)) :
    config.consensus_threshold ≤ c := by
  unfold analyze_consensus at h
  split at h
  · exact absurd h (by simp)
  split at h
  · exact consensus_exact_match_ok_threshold _ _ _ _ h
  split at h
  · exact consensus_numeric_tolerance_ok_threshold _ _ _ _ _ h
  split at h
  · exact consensus_exact_match_ok_threshold _ _ _ _ h
  split at h
  · exact consensus_hash_based_ok_threshold _ _ _ _ h
  · exact consensus_exact_match_ok_threshold _ _ _ _ h

/-- C2 (amended): a consensus call succeeds only when the winning confidence
is at least the configured threshold AND the successful replies number at
least `min(minConfirmations, candidates supplied)` — the configured
minimum is clamped to the number of candidates, so a minConfirmations
exceeding the available candidates does not by itself force a failure; the
call fails with InsufficientConfirmations exactly when the collected replies
fall short of the clamped minimum. -/
theorem execute_consensus_threshold_and_clamped_min_confirmations :
    (∀ (config : ConsensusConfig) (method : String)
      (outcomes : List (Except String Json)) (r : ConsensusResponse),
      execute_consensus config method outcomes = .ok r →
        config.consensus_threshold ≤ r.confidence ∧ r.consensus_achieved = true ∧
        min config.min_confirmations outcomes.length ≤
          (outcomes.filterMap (fun o => match o with
            | .ok response => some response
            | .error _ => none)).length) ∧
    (∀ (config : ConsensusConfig) (method : String)
      (outcomes : List (Except String Json)),
      (outcomes.filterMap (fun o => match o with
        | .ok response => some response
        | .error _ => none)).length < min config.min_confirmations outcomes.length →
      execute_consensus config method outcomes = .error .InsufficientConfirmations) := by
  constructor
  · intro config method outcomes r h
    simp only [execute_consensus] at h
    split at h
    · exact absurd h (by simp)
    · rename_i hge
      cases ha : analyze_consensus config method
          (outcomes.filterMap (fun o => match o with
            | .ok response => some response
            | .error _ => none)) with
      | error e => rw [ha] at h; exact absurd h (by simp)
      | ok p =>
        obtain ⟨v, conf⟩ := p
        rw [ha] at h
        dsimp only at h
        have hth := analyze_consensus_ok_threshold _ _ _ _ _ ha
        simp only [Except.ok.injEq] at h
        subst h
        exact ⟨hth, by simp [hth, decide_eq_true_eq], le_of_not_lt hge⟩
  · intro config method outcomes hlt
    unfold execute_consensus
    rw [if_pos hlt]

/-- Witness for C2: with minConfirmations 2 and two candidates that both
fail, the replies collected fall short of the clamped minimum and the call
fails with InsufficientConfirmations. -/
theorem execute_consensus_threshold_and_clamped_min_confirmations_witness :
    (([(.error "down" : Except String Json), .error "down"].filterMap (fun o => match o with
      | .ok response => some response
      | .error _ => none)).length < min (⟨2, 1⟩ : ConsensusConfig).min_confirmations
        [(.error "down" : Except String Json), .error "down"].length) ∧
    execute_consensus ⟨2, 1⟩ "getBalance" [.error "down", .error "down"]
      = .error .InsufficientConfirmations :=
  ⟨by decide, execute_consensus_threshold_and_clamped_min_confirmations.2 ⟨2, 1⟩
    "getBalance" [.error "down", .error "down"] (by decide)⟩

/-- C2 counterexample: with minConfirmations 3 but only one candidate, whose
reply arrives, the call does not fail with InsufficientConfirmations as the
claim requires — the minimum is clamped to the candidate count and the call
succeeds with consensus_achieved set. -/
theorem execute_consensus_ok_below_configured_min_confirmations :
    (∃ r, execute_consensus ⟨3, 67/100⟩ "getSlot"
      [.ok (.obj [("result", .num 100)])] = .ok r ∧ r.consensus_achieved = true) ∧
    (⟨3, 67/100⟩ : ConsensusConfig).min_confirmations = 3 ∧
    [(.ok (.obj [("result", .num 100)]) : Except String Json)].length = 1 := by
  refine ⟨⟨⟨.obj [("result", .num 100)], 1, 1, true⟩, ?_, rfl⟩, rfl, rfl⟩
  norm_num [execute_consensus, analyze_consensus, consensus_numeric_tolerance,
    extract_numeric_values, Json.getField, List.find?, Json.asU64, Json.asF64,
    List.filterMap, List.insertionSort, List.orderedInsert]
  rw [if_neg (by decide)]
  have hdec : decide ((67 : ℚ)/100 ≤ 1) = true := decide_eq_true (by norm_num)
  simp [hdec]

/-- `rust_min_by` returns `none` exactly on the empty list. -/
theorem rust_min_by_eq_none_iff {α : Type} (better : α → α → Bool) (l : List α) :
    rust_min_by better l = none ↔ l = [] := by
  constructor
  · intro h
    cases l with
    | nil => rfl
    | cons x xs =>
      exfalso
      have haux : ∀ (ys : List α) (a : α),
          ys.foldl (fun acc e => match acc with
            | none => some e
            | some a => if better e a then some e else some a) (some a) ≠ none := by
        intro ys
        induction ys with
        | nil => intro a contra; exact Option.noConfusion contra
        | cons y ys ih =>
          intro a
          rw [List.foldl_cons]
          show ys.foldl _ (if better y a then some y else some a) ≠ none
          split
          · exact ih y
          · exact ih a
      exact haux xs x (by simpa [rust_min_by, List.foldl_cons] using h)
  · intro h; subst h; rfl

/-- Whatever `rust_min_by` returns is a member of the list. -/
theorem rust_min_by_mem {α : Type} (better : α → α → Bool) (l : List α) (a : α)
    (h : rust_min_by better l = some a) : a ∈ l := by
  have haux : ∀ (ys : List α) (acc : Option α),
      ys.foldl (fun acc e => match acc with
        | none => some e
        | some a => if better e a then some e else some a) acc = some a →
      acc = some a ∨ a ∈ ys := by
    intro ys
    induction ys with
    | nil => intro acc h; exact Or.inl h
    | cons y ys ih =>
      intro acc
      rw [List.foldl_cons]
      intro hfold
      rcases ih _ hfold with hc | hm
      · cases acc with
        | none =>
          simp only at hc
          right
          exact List.mem_cons.mpr (Or.inl (Option.some.inj hc).symm)
        | some b =>
          simp only at hc
          split at hc
          · right
            exact List.mem_cons.mpr (Or.inl (Option.some.inj hc).symm)
          · exact Or.inl hc
      · right
        exact List.mem_cons_of_mem _ hm
  rcases haux l none h with hc | hm
  · exact Option.noConfusion hc
  · exact hm

/-- An admission verdict of `true` never leaves the breaker Open. -/
theorem can_attempt_true_not_open (cb : CircuitBreaker) (now : ℕ)
    (h : (cb.can_attempt now).1 = true) : ((cb.can_attempt now).2).state ≠ .Open := by
  obtain ⟨st, fc, lf, ft, td⟩ := cb
  cases st with
  | Closed => simp [CircuitBreaker.can_attempt]
  | HalfOpen => simp [CircuitBreaker.can_attempt]
  | Open =>
    cases lf with
    | none => simp [CircuitBreaker.can_attempt] at h
    | some t =>
      simp only [CircuitBreaker.can_attempt] at h ⊢
      split at h
      · rename_i hcond
        rw [if_pos hcond]
        simp
      · simp at h

/-- After the retain step, no breaker left in the map is Open. -/
theorem retain_breakers_not_open (breakers : List (ℕ × CircuitBreaker)) (now : ℕ) :
    ∀ p ∈ retain_breakers breakers now, p.2.state ≠ .Open := by
  intro p hp
  simp only [retain_breakers, List.mem_filterMap] at hp
  obtain ⟨q, _, hsome⟩ := hp
  by_cases hc : (q.2.can_attempt now).1
  · rw [if_pos hc] at hsome
    have := can_attempt_true_not_open q.2 now hc
    rw [← Option.some.inj hsome]
    exact this
  · rw [if_neg hc] at hsome
    exact Option.noConfusion hsome

/-- Whatever the weighted walk picks is one of the walked endpoints. -/
theorem weighted_loop_mem (healthy : List Endpoint) (cw r : ℕ) (e : Endpoint)
    (h : weighted_loop healthy cw r = some e) : e ∈ healthy := by
  induction healthy generalizing cw with
  | nil => exact Option.noConfusion h
  | cons x xs ih =>
    simp only [weighted_loop] at h
    split at h
    · exact List.mem_cons.mpr (Or.inl (Option.some.inj h).symm)
    · exact List.mem_cons_of_mem _ (ih _ h)

/-- Round-robin selection returns an available endpoint, and errs with
AllEndpointsUnhealthy exactly when no endpoint is available. -/
theorem select_round_robin_spec (endpoints : List Endpoint) (next : ℕ) :
    (∀ id next2, select_round_robin endpoints next = .ok (id, next2) →
      ∃ e ∈ endpoints, e.id = id ∧ is_endpoint_available e = true) ∧
    (select_round_robin endpoints next = .error .AllEndpointsUnhealthy ↔
      endpoints.filter is_endpoint_available = []) := by
  simp only [select_round_robin]
  split
  · rename_i hlen
    refine ⟨fun id next2 h => absurd h (by simp), ?_⟩
    simp [List.length_eq_zero.mp hlen]
  · rename_i hlen
    constructor
    · intro id next2 h
      simp only [Except.ok.injEq, Prod.mk.injEq] at h
      refine ⟨(endpoints.filter is_endpoint_available).get
          ⟨(next + 1) % (endpoints.filter is_endpoint_available).length,
            Nat.mod_lt _ (Nat.pos_of_ne_zero hlen)⟩, ?_, ?_, ?_⟩
      · exact List.mem_of_mem_filter (List.get_mem _ _ _)
      · exact h.1
      · exact List.of_mem_filter (List.get_mem _ _ _)
    · constructor
      · intro h; exact absurd h (by simp)
      · intro h; exact absurd (List.length_eq_zero.mpr h) hlen

/-- Health-based selection over a breaker map with no Open entries returns
an available endpoint, erring exactly when none is available. -/
theorem select_by_health_spec (endpoints : List Endpoint)
    (breakers : List (ℕ × CircuitBreaker))
    (hbk : ∀ p ∈ breakers, p.2.state ≠ .Open) :
    (∀ id, select_by_health endpoints breakers = .ok id →
      ∃ e ∈ endpoints, e.id = id ∧ is_endpoint_available e = true) ∧
    (select_by_health endpoints breakers = .error .AllEndpointsUnhealthy ↔
      endpoints.filter is_endpoint_available = []) := by
  have hfil : endpoints.filter (fun e =>
      is_endpoint_available e &&
        match (breakers.find? (fun p => p.1 = e.id)).map Prod.snd with
        | some cb => decide (cb.state ≠ .Open)
        | none => true) = endpoints.filter is_endpoint_available := by
    apply List.filter_congr
    intro e _
    cases hf : breakers.find? (fun p => p.1 = e.id) with
    | none => simp
    | some q =>
      have hq := hbk q (List.mem_of_find?_eq_some hf)
      simp [hq]
  simp only [select_by_health]
  rw [hfil]
  cases hm : list_min_by_key health_selection_key
      (endpoints.filter is_endpoint_available) with
  | none =>
    have hnil := (rust_min_by_eq_none_iff _ _).mp hm
    exact ⟨fun id h => absurd h (by simp), by simp [hnil]⟩
  | some e =>
    have hmem := rust_min_by_mem _ _ _ hm
    constructor
    · intro id h
      simp only [Except.ok.injEq] at h
      exact ⟨e, List.mem_of_mem_filter hmem, h, List.of_mem_filter hmem⟩
    · constructor
      · intro h; exact absurd h (by simp)
      · intro h
        rw [h] at hmem
        exact absurd hmem (List.not_mem_nil e)

/-- Least-latency selection returns an available endpoint, erring exactly
when none is available. -/
theorem select_by_latency_spec (endpoints : List Endpoint) :
    (∀ id, select_by_latency endpoints = .ok id →
      ∃ e ∈ endpoints, e.id = id ∧ is_endpoint_available e = true) ∧
    (select_by_latency endpoints = .error .AllEndpointsUnhealthy ↔
      endpoints.filter is_endpoint_available = []) := by
  unfold select_by_latency
  cases hm : list_min_by_time (endpoints.filter is_endpoint_available) with
  | none =>
    rw [(rust_min_by_eq_none_iff _ _).mp hm]
    exact ⟨fun id h => absurd h (by simp), by simp [(rust_min_by_eq_none_iff _ _).mp hm]⟩
  | some e =>
    have hmem := rust_min_by_mem _ _ _ hm
    constructor
    · intro id h
      simp only [Except.ok.injEq] at h
      exact ⟨e, List.mem_of_mem_filter hmem, h, List.of_mem_filter hmem⟩
    · constructor
      · intro h; exact absurd h (by simp)
      · intro h
        rw [h] at hmem
        exact absurd hmem (List.not_mem_nil e)

/-- Weighted selection returns an available endpoint, erring exactly when
none is available. -/
theorem select_weighted_spec (endpoints : List Endpoint) (next rand : ℕ) :
    (∀ id next2, select_weighted endpoints next rand = .ok (id, next2) →
      ∃ e ∈ endpoints, e.id = id ∧ is_endpoint_available e = true) ∧
    (select_weighted endpoints next rand = .error .AllEndpointsUnhealthy ↔
      endpoints.filter is_endpoint_available = []) := by
  simp only [select_weighted]
  split
  · rename_i hlen
    refine ⟨fun id next2 h => absurd h (by simp), ?_⟩
    simp [List.length_eq_zero.mp hlen]
  · rename_i hlen
    split
    · exact select_round_robin_spec endpoints next
    · split
      · rename_i e hloop
        have hmem := weighted_loop_mem _ _ _ _ hloop
        refine ⟨fun id next2 h => ?_, fun h => absurd h (by simp),
          fun h => absurd (h ▸ hmem) (List.not_mem_nil e)⟩
        simp only [Except.ok.injEq, Prod.mk.injEq] at h
        exact ⟨e, List.mem_of_mem_filter hmem, h.1, List.of_mem_filter hmem⟩
      · split
        · rename_i e hfind
          have hmem := List.mem_of_find?_eq_some hfind
          have hav := List.find?_some hfind
          refine ⟨fun id next2 h => ?_, fun h => absurd h (by simp), fun h => ?_⟩
          · simp only [Except.ok.injEq, Prod.mk.injEq] at h
            exact ⟨e, hmem, h.1, hav⟩
          · have hin : e ∈ endpoints.filter is_endpoint_available :=
              List.mem_filter.mpr ⟨hmem, hav⟩
            rw [h] at hin
            exact absurd hin (List.not_mem_nil e)
        · rename_i hfind
          refine ⟨fun id next2 h => absurd h (by simp), fun _ => ?_,
            fun h => absurd (List.length_eq_zero.mpr h) hlen⟩
          cases hfe : endpoints.filter is_endpoint_available with
          | nil => rfl
          | cons x xs =>
            exfalso
            have hx : x ∈ endpoints.filter is_endpoint_available := by
              rw [hfe]; exact List.mem_cons_self x xs
            exact (List.find?_eq_none.mp hfind x (List.mem_of_mem_filter hx))
              (List.of_mem_filter hx)

/-- The only selection error round-robin produces is AllEndpointsUnhealthy. -/
theorem select_round_robin_error_shape (endpoints : List Endpoint) (next : ℕ)
    (a : AppError) (h : select_round_robin endpoints next = .error a) :
    a = .AllEndpointsUnhealthy := by
  revert h
  simp only [select_round_robin]
  split
  · intro h; exact (Except.error.inj h).symm
  · intro h; simp at h

/-- The only selection error health-based selection produces is
AllEndpointsUnhealthy. -/
theorem select_by_health_error_shape (endpoints : List Endpoint)
    (breakers : List (ℕ × CircuitBreaker)) (a : AppError)
    (h : select_by_health endpoints breakers = .error a) :
    a = .AllEndpointsUnhealthy := by
  revert h
  simp only [select_by_health]
  split
  · intro h; simp at h
  · intro h; exact (Except.error.inj h).symm

/-- The only selection error least-latency selection produces is
AllEndpointsUnhealthy. -/
theorem select_by_latency_error_shape (endpoints : List Endpoint) (a : AppError)
    (h : select_by_latency endpoints = .error a) : a = .AllEndpointsUnhealthy := by
  revert h
  simp only [select_by_latency]
  split
  · intro h; simp at h
  · intro h; exact (Except.error.inj h).symm

/-- The only selection error weighted selection produces is
AllEndpointsUnhealthy. -/
theorem select_weighted_error_shape (endpoints : List Endpoint) (next rand : ℕ)
    (a : AppError) (h : select_weighted endpoints next rand = .error a) :
    a = .AllEndpointsUnhealthy := by
  revert h
  simp only [select_weighted]
  split
  · intro h; exact (Except.error.inj h).symm
  · split
    · exact select_round_robin_error_shape endpoints next a
    · split
      · intro h; simp at h
      · split
        · intro h; simp at h
        · intro h; exact (Except.error.inj h).symm

/-- C1 (amended): under every strategy, a successful selection returns an
endpoint that is available at selection time — status ∈ {Healthy, Degraded,
Unknown} and active connections below the cap — and selection fails, always
with AllEndpointsUnhealthy, exactly when no endpoint passes that check.  The
circuit breaker is NOT part of this guarantee: `select_endpoint` drops
non-admissible breakers from the breaker map instead of excluding their
endpoints, so an endpoint whose breaker is Open may still be returned. -/
theorem select_endpoint_returns_available (st : ManagerState) (now rand_nanos : ℕ) :
    (∀ id, (select_endpoint st now rand_nanos).1 = .ok id →
      ∃ e ∈ st.endpoints, e.id = id ∧ is_endpoint_available e = true) ∧
    ((select_endpoint st now rand_nanos).1 = .error .AllEndpointsUnhealthy ↔
      st.endpoints.filter is_endpoint_available = []) ∧
    (∀ a, (select_endpoint st now rand_nanos).1 = .error a → a = .AllEndpointsUnhealthy)
    := by
  simp only [select_endpoint]
  cases st.strategy with
  | RoundRobin =>
    obtain ⟨hok, hiff⟩ := select_round_robin_spec st.endpoints st.next_round_robin
    cases hr : select_round_robin st.endpoints st.next_round_robin with
    | ok p =>
      obtain ⟨id0, next0⟩ := p
      rw [hr] at hiff
      refine ⟨?_, ?_, ?_⟩
      · intro id h
        cases Except.ok.inj (show (Except.ok id0 : Except AppError ℕ) = .ok id from h)
        exact hok id0 next0 hr
      · constructor
        · intro h
          exact absurd (show (Except.ok id0 : Except AppError ℕ) =
            .error .AllEndpointsUnhealthy from h) (by simp)
        · intro hf
          exact absurd (hiff.mpr hf) (by simp)
      · intro a h
        exact absurd (show (Except.ok id0 : Except AppError ℕ) = .error a from h) (by simp)
    | error e =>
      have he := select_round_robin_error_shape st.endpoints st.next_round_robin e hr
      subst he
      rw [hr] at hiff
      refine ⟨?_, ?_, ?_⟩
      · intro id h
        exact absurd (show (Except.error .AllEndpointsUnhealthy : Except AppError ℕ) =
          .ok id from h) (by simp)
      · exact ⟨fun _ => hiff.mp rfl, fun _ =>
          show (Except.error _ : Except AppError ℕ) = _ from rfl⟩
      · intro a h
        exact (Except.error.inj (show (Except.error .AllEndpointsUnhealthy :
          Except AppError ℕ) = .error a from h)).symm
  | HealthBased =>
    obtain ⟨hok, hiff⟩ := select_by_health_spec st.endpoints
      (retain_breakers st.circuit_breakers now) (retain_breakers_not_open _ _)
    exact ⟨fun id h => hok id h, hiff,
      fun a h => select_by_health_error_shape _ _ a h⟩
  | LeastLatency =>
    obtain ⟨hok, hiff⟩ := select_by_latency_spec st.endpoints
    exact ⟨fun id h => hok id h, hiff,
      fun a h => select_by_latency_error_shape _ a h⟩
  | Weighted =>
    obtain ⟨hok, hiff⟩ := select_weighted_spec st.endpoints st.next_round_robin rand_nanos
    cases hr : select_weighted st.endpoints st.next_round_robin rand_nanos with
    | ok p =>
      obtain ⟨id0, next0⟩ := p
      rw [hr] at hiff
      refine ⟨?_, ?_, ?_⟩
      · intro id h
        cases Except.ok.inj (show (Except.ok id0 : Except AppError ℕ) = .ok id from h)
        exact hok id0 next0 hr
      · constructor
        · intro h
          exact absurd (show (Except.ok id0 : Except AppError ℕ) =
            .error .AllEndpointsUnhealthy from h) (by simp)
        · intro hf
          exact absurd (hiff.mpr hf) (by simp)
      · intro a h
        exact absurd (show (Except.ok id0 : Except AppError ℕ) = .error a from h) (by simp)
    | error e =>
      have he := select_weighted_error_shape st.endpoints st.next_round_robin rand_nanos e hr
      subst he
      rw [hr] at hiff
      refine ⟨?_, ?_, ?_⟩
      · intro id h
        exact absurd (show (Except.error .AllEndpointsUnhealthy : Except AppError ℕ) =
          .ok id from h) (by simp)
      · exact ⟨fun _ => hiff.mp rfl, fun _ =>
          show (Except.error _ : Except AppError ℕ) = _ from rfl⟩
      · intro a h
        exact (Except.error.inj (show (Except.error .AllEndpointsUnhealthy :
          Except AppError ℕ) = .error a from h)).symm

/-- Witness for C1 at a concrete one-endpoint pool under RoundRobin. -/
theorem select_endpoint_returns_available_witness :
    ∃ e ∈ (⟨[⟨1, .Healthy, 100, 1, 0, 0, 100⟩], [], .RoundRobin, 0⟩ :
      ManagerState).endpoints, e.id = 1 ∧ is_endpoint_available e = true :=
  (select_endpoint_returns_available
    ⟨[⟨1, .Healthy, 100, 1, 0, 0, 100⟩], [], .RoundRobin, 0⟩ 0 0).1 1 rfl

/-- C1 counterexample: an endpoint whose circuit breaker is Open — and still
inside its open window, so its admission query is rejected — is nevertheless
returned by `select_endpoint`: the retain step deletes the Open breaker from
the map and the availability check never consults it.  The claim requires
the returned endpoint's breaker not to be Open (and AllEndpointsUnhealthy
otherwise). -/
theorem select_endpoint_returns_open_breaker_endpoint :
    ((select_endpoint ⟨[⟨1, .Healthy, 100, 1, 0, 0, 100⟩],
        [(1, ⟨.Open, 5, some 100, 5, 30⟩)], .HealthBased, 0⟩ 110 0).1 = .ok 1) ∧
    (⟨.Open, 5, some 100, 5, 30⟩ : CircuitBreaker).state = .Open ∧
    ((⟨.Open, 5, some 100, 5, 30⟩ : CircuitBreaker).can_attempt 110).1 = false := by
  exact ⟨rfl, rfl, rfl⟩

/-- The weighted walk picks index `i` exactly when the counter lands in that
endpoint's weight interval. -/
theorem weighted_loop_eq_some_iff (healthy : List Endpoint) (r : ℕ) :
    ∀ (cw i : ℕ), healthy.Nodup → cw ≤ r → ∀ (hi : i < healthy.length),
    (weighted_loop healthy cw r = some healthy[i] ↔
      cw + take_weight_sum healthy i ≤ r ∧
        r < cw + take_weight_sum healthy i + healthy[i].weight) := by
  induction healthy with
  | nil => intro cw i _ _ hi; exact absurd hi (by simp)
  | cons x xs ih =>
    intro cw i hnd hcw hi
    obtain ⟨hx, hxs⟩ := List.nodup_cons.mp hnd
    cases i with
    | zero =>
      simp only [List.getElem_cons_zero, take_weight_sum, List.take_zero, List.map_nil,
        List.sum_nil, Nat.add_zero]
      simp only [weighted_loop]
      constructor
      · intro h
        split at h
        · rename_i hr
          exact ⟨hcw, by omega⟩
        · exact absurd (weighted_loop_mem _ _ _ _ h) hx
      · intro hc
        rw [if_pos (by omega)]
    | succ j =>
      have hj : j < xs.length := by simpa using hi
      have hget : (x :: xs)[j + 1] = xs[j] := List.getElem_cons_succ x xs j hi
      have hpre : take_weight_sum (x :: xs) (j + 1) = x.weight + take_weight_sum xs j := by
        simp [take_weight_sum, List.take_succ_cons]
      rw [hget, hpre]
      simp only [weighted_loop]
      constructor
      · intro h
        split at h
        · exact absurd ((Option.some.inj h) ▸ List.getElem_mem hj) hx
        · rename_i hr
          have := (ih (cw + x.weight) j hxs (by omega) hj).mp h
          exact ⟨by omega, by omega⟩
      · intro hc
        rw [if_neg (by omega)]
        exact (ih (cw + x.weight) j hxs (by omega) hj).mpr ⟨by omega, by omega⟩

/-- Over one full revolution of the counter, index `i` is picked for exactly
`weight i` of the counter values: the walk samples proportionally to
weight. -/
theorem weighted_loop_range_filter_card (healthy : List Endpoint)
    (hnd : healthy.Nodup) (i : ℕ) (hi : i < healthy.length) :
    ((Finset.range ((healthy.map Endpoint.weight).sum)).filter
      (fun r => weighted_loop healthy 0 r = some healthy[i])).card
      = healthy[i].weight := by
  have hsucc : take_weight_sum healthy (i + 1) =
      take_weight_sum healthy i + healthy[i].weight := by
    have hi2 : i < (healthy.map Endpoint.weight).length := by simpa using hi
    simp only [take_weight_sum, List.map_take]
    rw [List.take_succ, List.getElem?_eq_getElem hi2, List.sum_append]
    simp
  have hle : take_weight_sum healthy (i + 1) ≤ (healthy.map Endpoint.weight).sum := by
    simp only [take_weight_sum]
    conv_rhs => rw [← List.take_append_drop (i + 1) healthy]
    rw [List.map_append, List.sum_append]
    exact Nat.le_add_right _ _
  have hset : ((Finset.range ((healthy.map Endpoint.weight).sum)).filter
      (fun r => weighted_loop healthy 0 r = some healthy[i])) =
      Finset.Ico (take_weight_sum healthy i)
        (take_weight_sum healthy i + healthy[i].weight) := by
    ext r
    simp only [Finset.mem_filter, Finset.mem_range, Finset.mem_Ico]
    constructor
    · intro hr
      have := (weighted_loop_eq_some_iff healthy r 0 i hnd (Nat.zero_le r) hi).mp hr.2
      omega
    · intro hr
      refine ⟨by omega, ?_⟩
      exact (weighted_loop_eq_some_iff healthy r 0 i hnd (Nat.zero_le r) hi).mpr
        ⟨by omega, by omega⟩
  rw [hset, Nat.card_Ico]
  omega

/-- C9: the Weighted strategy samples proportionally to weight — over one
full revolution of the rolling counter, each eligible endpoint is picked for
exactly its weight's share of counter values — and when the total weight of
the eligible endpoints is zero, selection falls back to RoundRobin. -/
theorem select_weighted_proportional_and_zero_weight_fallback :
    (∀ (healthy : List Endpoint), healthy.Nodup →
      ∀ (i : ℕ) (hi : i < healthy.length),
      ((Finset.range ((healthy.map Endpoint.weight).sum)).filter
        (fun r => weighted_loop healthy 0 r = some healthy[i])).card
        = healthy[i].weight) ∧
    (∀ (endpoints : List Endpoint) (next rand : ℕ),
      endpoints.filter is_endpoint_available ≠ [] →
      ((endpoints.filter is_endpoint_available).map Endpoint.weight).sum = 0 →
      select_weighted endpoints next rand = select_round_robin endpoints next) := by
  constructor
  · exact fun healthy hnd i hi => weighted_loop_range_filter_card healthy hnd i hi
  · intro endpoints next rand hne hzero
    simp only [select_weighted]
    rw [if_neg (fun h => hne (List.length_eq_zero.mp h)), if_pos hzero]

/-- Witness for C9: two eligible endpoints of weights 2 and 1; the first is
picked for 2 of the 3 counter values, and a zero-weight pool falls back to
round robin. -/
theorem select_weighted_proportional_and_zero_weight_fallback_witness :
    ([⟨1, .Healthy, 2, 1, 0, 0, 10⟩, ⟨2, .Healthy, 1, 1, 0, 0, 10⟩] :
      List Endpoint).Nodup ∧
    ((Finset.range ((([⟨1, .Healthy, 2, 1, 0, 0, 10⟩, ⟨2, .Healthy, 1, 1, 0, 0, 10⟩] :
        List Endpoint).map Endpoint.weight).sum)).filter
      (fun r => weighted_loop [⟨1, .Healthy, 2, 1, 0, 0, 10⟩, ⟨2, .Healthy, 1, 1, 0, 0, 10⟩]
        0 r = some (([⟨1, .Healthy, 2, 1, 0, 0, 10⟩, ⟨2, .Healthy, 1, 1, 0, 0, 10⟩] :
        List Endpoint)[0]))).card
      = (([⟨1, .Healthy, 2, 1, 0, 0, 10⟩, ⟨2, .Healthy, 1, 1, 0, 0, 10⟩] :
        List Endpoint)[0]).weight ∧
    select_weighted [⟨1, .Healthy, 0, 1, 0, 0, 10⟩] 5 7 =
      select_round_robin [⟨1, .Healthy, 0, 1, 0, 0, 10⟩] 5 :=
  ⟨by decide,
    select_weighted_proportional_and_zero_weight_fallback.1 _ (by decide) 0 (by decide),
    select_weighted_proportional_and_zero_weight_fallback.2 _ 5 7 (by decide) (by decide)⟩

/-- `as_u64` on a natural-number JSON value. -/
theorem asU64_natCast (n : ℕ) : Json.asU64 (.num (n : ℚ)) = some n := by
  simp [Json.asU64, Rat.den_natCast, Rat.num_natCast]

/-- When every reply carries a u64 `result`, extraction drops nothing. -/
theorem extract_numeric_values_length (responses : List Json)
    (hnum : ∀ resp ∈ responses, ∃ n : ℕ, resp.getField "result" = some (.num (n : ℚ))) :
    (extract_numeric_values responses).length = responses.length := by
  induction responses with
  | nil => rfl
  | cons x xs ih =>
    obtain ⟨n, hn⟩ := hnum x (List.mem_cons_self x xs)
    simp only [extract_numeric_values, List.filterMap_cons] at ih ⊢
    rw [hn]
    simp only [asU64_natCast, List.length_cons]
    rw [ih (fun resp h => hnum resp (List.mem_cons_of_mem _ h))]

/-- Every extracted numeric value comes from a reply whose u64 `result`
equals it. -/
theorem extract_numeric_values_mem (responses : List Json)
    (hnum : ∀ resp ∈ responses, ∃ n : ℕ, resp.getField "result" = some (.num (n : ℚ)))
    (v : ℚ) (hv : v ∈ extract_numeric_values responses) :
    ∃ resp ∈ responses, ∃ n : ℕ,
      resp.getField "result" = some (.num (n : ℚ)) ∧ v = (n : ℚ) := by
  simp only [extract_numeric_values, List.mem_filterMap] at hv
  obtain ⟨resp, hmem, hf⟩ := hv
  obtain ⟨n, hn⟩ := hnum resp hmem
  rw [hn] at hf
  simp only [asU64_natCast] at hf
  exact ⟨resp, hmem, n, hn, (Option.some.inj hf).symm⟩

/-- When some reply's u64 result lies within tolerance of the median, the
canonical-reply search succeeds and returns a reply from the input whose
u64 result is within tolerance. -/
theorem numeric_canonical_found (responses : List Json) (median tolerance : ℚ)
    (hnum : ∀ resp ∈ responses, ∃ n : ℕ, resp.getField "result" = some (.num (n : ℚ)))
    (resp0 : Json) (hmem : resp0 ∈ responses) (n0 : ℕ)
    (hres : resp0.getField "result" = some (.num (n0 : ℚ)))
    (hclose : |(n0 : ℚ) - median| ≤ tolerance) :
    ∃ canonical, responses.find? (fun response =>
        match (response.getField "result").bind Json.asU64 with
        | some v => decide (|(v : ℚ) - median| ≤ tolerance)
        | none => false) = some canonical ∧
      canonical ∈ responses ∧
      ∃ n : ℕ, canonical.getField "result" = some (.num (n : ℚ)) ∧
        |(n : ℚ) - median| ≤ tolerance := by
  have hpred : (fun response =>
      match (response.getField "result").bind Json.asU64 with
      | some v => decide (|(v : ℚ) - median| ≤ tolerance)
      | none => false) resp0 = true := by
    show (match (resp0.getField "result").bind Json.asU64 with
      | some v => decide (|(v : ℚ) - median| ≤ tolerance)
      | none => false) = true
    rw [hres]
    show (match Json.asU64 (.num (n0 : ℚ)) with
      | some v => decide (|(v : ℚ) - median| ≤ tolerance)
      | none => false) = true
    rw [asU64_natCast]
    exact decide_eq_true hclose
  have hs : (responses.find? (fun response =>
      match (response.getField "result").bind Json.asU64 with
      | some v => decide (|(v : ℚ) - median| ≤ tolerance)
      | none => false)).isSome := List.find?_isSome.mpr ⟨resp0, hmem, hpred⟩
  obtain ⟨canonical, hfind⟩ := Option.isSome_iff_exists.mp hs
  have hcmem := List.mem_of_find?_eq_some hfind
  obtain ⟨m, hm⟩ := hnum canonical hcmem
  have hp := List.find?_some hfind
  simp only [hm, Option.some_bind, asU64_natCast] at hp
  exact ⟨canonical, hfind, hcmem, m, hm, of_decide_eq_true hp⟩

/-- C7: numeric-tolerance reconciliation over replies with u64 numeric
results.  The numeric results are extracted and sorted; the median is the
sorted list's central value — for an even count, the mean of the two
central values; the confidence is the count of values within ±tolerance
of the median divided by the total count; the call fails with a consensus
error exactly when that confidence is below the (positive) threshold, and
otherwise returns that confidence together with a canonical reply drawn
from the input list whose numeric result is within tolerance of the
median. -/
theorem consensus_numeric_tolerance_spec (threshold tolerance : ℚ)
    (responses : List Json) (vals sorted : List ℚ) (median : ℚ)
    (within total : ℕ) (confidence : ℚ)
    (hne : responses ≠ [])
    (hnum : ∀ resp ∈ responses, ∃ n : ℕ, resp.getField "result" = some (.num (n : ℚ)))
    (hpos : 0 < threshold)
    (hvals : vals = extract_numeric_values responses)
    (hsorted : sorted = List.insertionSort (fun a b => a ≤ b) vals)
    (hmedian : median = if sorted.length % 2 = 0 then
        (sorted.getD (sorted.length / 2 - 1) 0 + sorted.getD (sorted.length / 2) 0) / 2
      else sorted.getD (sorted.length / 2) 0)
    (hwithin : within = (sorted.filter (fun v => |v - median| ≤ tolerance)).length)
    (htotal : total = vals.length)
    (hconf : confidence = (within : ℚ) / (total : ℚ)) :
    (confidence < threshold →
      consensus_numeric_tolerance threshold responses tolerance =
        .error .ConsensusError) ∧
    (threshold ≤ confidence →
      ∃ canonical,
        consensus_numeric_tolerance threshold responses tolerance =
          .ok (canonical, confidence) ∧
        canonical ∈ responses ∧
        ∃ n : ℕ, canonical.getField "result" = some (.num (n : ℚ)) ∧
          |(n : ℚ) - median| ≤ tolerance) := by
  have hlen := extract_numeric_values_length responses hnum
  have hlen0 : ¬ (extract_numeric_values responses).length = 0 := by
    intro h
    apply hne
    apply List.length_eq_zero.mp
    omega
  constructor
  · intro hlt
    simp only [consensus_numeric_tolerance]
    rw [if_neg hlen0, ← hvals, ← hsorted, ← hmedian, ← hwithin, ← htotal, ← hconf,
      if_pos hlt]
  · intro hge
    have hwpos : ¬ within = 0 := by
      intro h0
      rw [h0] at hconf
      norm_num at hconf
      rw [hconf] at hge
      exact absurd (lt_of_lt_of_le hpos hge) (lt_irrefl _)
    have hflen : 0 < (sorted.filter (fun v => |v - median| ≤ tolerance)).length := by
      rw [← hwithin]
      exact Nat.pos_of_ne_zero hwpos
    obtain ⟨vp, hvp⟩ := List.exists_mem_of_length_pos hflen
    have hvmem := List.mem_of_mem_filter hvp
    have hvclose : |vp - median| ≤ tolerance := by
      simpa using List.of_mem_filter hvp
    have hvvals : vp ∈ extract_numeric_values responses := by
      rw [hsorted] at hvmem
      rw [hvals] at hvmem
      exact (List.perm_insertionSort _ _).mem_iff.mp hvmem
    obtain ⟨resp0, hmem0, n0, hres0, hveq⟩ :=
      extract_numeric_values_mem responses hnum vp hvvals
    obtain ⟨canonical, hfind, hcmem, hcan⟩ :=
      numeric_canonical_found responses median tolerance hnum resp0 hmem0 n0 hres0
        (hveq ▸ hvclose)
    refine ⟨canonical, ?_, hcmem, hcan⟩
    simp only [consensus_numeric_tolerance]
    rw [if_neg hlen0, ← hvals, ← hsorted, ← hmedian, ← hwithin, ← htotal, ← hconf,
      if_neg (not_lt.mpr hge), hfind]
theorem consensus_numeric_tolerance_spec_witness :
    (0:ℚ) < 1 ∧
    ∃ canonical,
      consensus_numeric_tolerance 1 [Json.obj [("result", Json.num ((100:ℕ):ℚ))]] 2 =
        .ok (canonical, ((1:ℕ):ℚ) / ((1:ℕ):ℚ)) ∧
      canonical ∈ [Json.obj [("result", Json.num ((100:ℕ):ℚ))]] ∧
      ∃ n : ℕ, canonical.getField "result" = some (.num (n : ℚ)) ∧
        |(n : ℚ) - ((100:ℕ):ℚ)| ≤ 2 :=
  ⟨by decide,
    (consensus_numeric_tolerance_spec 1 2 [Json.obj [("result", Json.num ((100:ℕ):ℚ))]]
      [((100:ℕ):ℚ)] [((100:ℕ):ℚ)] ((100:ℕ):ℚ) 1 1 (((1:ℕ):ℚ) / ((1:ℕ):ℚ))
      (List.cons_ne_nil _ _)
      (by intro resp hresp
          rw [List.mem_singleton] at hresp
          subst hresp
          exact ⟨100, rfl⟩)
      (by decide) rfl rfl rfl
      (by
        have h : |((100:ℕ):ℚ) - ((100:ℕ):ℚ)| ≤ 2 := by simp
        simp [List.filter_cons, h])
      rfl rfl).2 (by simp)⟩
/-- Unfolding `normalize_value` on arrays without the `attach` scaffolding. -/
theorem normalize_value_arr (xs : List Json) :
    normalize_value (.arr xs) = .arr (xs.map normalize_value) := by
  rw [normalize_value]
  congr 1
  exact List.attach_map_val xs normalize_value

/-- Unfolding `normalize_value` on objects without the `attach` scaffolding. -/
theorem normalize_value_obj (l : List (String × Json)) :
    normalize_value (.obj l) = .obj ((List.insertionSort pairKeyLe l).map
      (fun p => (p.1, normalize_value p.2))) := by
  rw [normalize_value]
  congr 1
  exact List.attach_map_val (List.insertionSort pairKeyLe l)
    (fun q => (q.1, normalize_value q.2))
/-- `normalize_value` identifies JSON values that differ only in object key
order. -/
theorem normalize_value_congr (a b : Json) (h : SameJson a b) :
    normalize_value a = normalize_value b := by
  induction h with
  | null => rfl
  | bool b => rfl
  | num q => rfl
  | str s => rfl
  | @arr xs ys hlen h ih =>
    rw [normalize_value_arr, normalize_value_arr]
    congr 1
    apply List.ext
    intro n
    rw [List.get?_map, List.get?_map]
    cases hx : xs.get? n with
    | none =>
      have hge : xs.length ≤ n := List.get?_eq_none.mp hx
      rw [List.get?_eq_none.mpr (hlen ▸ hge)]
    | some v =>
      obtain ⟨hlt, hget⟩ := List.get?_eq_some.mp hx
      have hlt2 : n < ys.length := hlen ▸ hlt
      rw [List.get?_eq_get hlt2]
      show some (normalize_value v) = some (normalize_value (ys.get ⟨n, hlt2⟩))
      exact congrArg some (ih n v _ hx (List.get?_eq_get hlt2))
  | @obj l1 l2 h1 h2 hk hv ih =>
    rw [normalize_value_obj, normalize_value_obj]
    congr 1
    have hp1 := List.perm_insertionSort pairKeyLe l1
    have hp2 := List.perm_insertionSort pairKeyLe l2
    have hnd1 : ((List.insertionSort pairKeyLe l1).map Prod.fst).Nodup :=
      ((hp1.map Prod.fst).nodup_iff).mpr h1
    have hnd2 : ((List.insertionSort pairKeyLe l2).map Prod.fst).Nodup :=
      ((hp2.map Prod.fst).nodup_iff).mpr h2
    have hs1 : (List.insertionSort pairKeyLe l1).Pairwise pairKeyLe :=
      List.sorted_insertionSort pairKeyLe l1
    have hs2 : (List.insertionSort pairKeyLe l2).Pairwise pairKeyLe :=
      List.sorted_insertionSort pairKeyLe l2
    have hlt1 : (List.insertionSort pairKeyLe l1).Pairwise pairKeyLt :=
      (hs1.and (List.pairwise_map.mp hnd1)).imp
        (fun hpq => lt_of_le_of_ne hpq.1 hpq.2)
    have hlt2 : (List.insertionSort pairKeyLe l2).Pairwise pairKeyLt :=
      (hs2.and (List.pairwise_map.mp hnd2)).imp
        (fun hpq => lt_of_le_of_ne hpq.1 hpq.2)
    have hms1 : ((List.insertionSort pairKeyLe l1).map
        (fun p => (p.1, normalize_value p.2))).Pairwise pairKeyLt :=
      List.pairwise_map.mpr (hlt1.imp (fun hpq => hpq))
    have hms2 : ((List.insertionSort pairKeyLe l2).map
        (fun p => (p.1, normalize_value p.2))).Pairwise pairKeyLt :=
      List.pairwise_map.mpr (hlt2.imp (fun hpq => hpq))
    have hcomp : (Prod.fst ∘ (fun p : String × Json => (p.1, normalize_value p.2)))
        = Prod.fst := funext (fun p => rfl)
    have hmnd1 : (((List.insertionSort pairKeyLe l1).map
        (fun p => (p.1, normalize_value p.2))).map Prod.fst).Nodup := by
      rw [List.map_map, hcomp]
      exact hnd1
    have hmnd2 : (((List.insertionSort pairKeyLe l2).map
        (fun p => (p.1, normalize_value p.2))).map Prod.fst).Nodup := by
      rw [List.map_map, hcomp]
      exact hnd2
    have hmn1 := List.Nodup.of_map Prod.fst hmnd1
    have hmn2 := List.Nodup.of_map Prod.fst hmnd2
    have hmem : ∀ z,
        z ∈ (List.insertionSort pairKeyLe l1).map (fun p => (p.1, normalize_value p.2)) ↔
        z ∈ (List.insertionSort pairKeyLe l2).map (fun p => (p.1, normalize_value p.2)) := by
      intro z
      constructor
      · intro hz
        obtain ⟨p, hpmem, rfl⟩ := List.mem_map.mp hz
        have hpl1 : p ∈ l1 := hp1.mem_iff.mp hpmem
        have hkey : p.1 ∈ l2.map Prod.fst :=
          (hk p.1).mp (List.mem_map_of_mem Prod.fst hpl1)
        obtain ⟨q, hql2, hq1⟩ := List.mem_map.mp hkey
        have hqpair : (p.1, q.2) ∈ l2 := by
          rw [← hq1]
          exact hql2
        have heq := ih p.1 p.2 q.2 hpl1 hqpair
        refine List.mem_map.mpr ⟨(p.1, q.2), hp2.mem_iff.mpr hqpair, ?_⟩
        simp only [Prod.mk.injEq]
        exact ⟨trivial, heq.symm⟩
      · intro hz
        obtain ⟨p, hpmem, rfl⟩ := List.mem_map.mp hz
        have hpl2 : p ∈ l2 := hp2.mem_iff.mp hpmem
        have hkey : p.1 ∈ l1.map Prod.fst :=
          (hk p.1).mpr (List.mem_map_of_mem Prod.fst hpl2)
        obtain ⟨q, hql1, hq1⟩ := List.mem_map.mp hkey
        have hqpair : (p.1, q.2) ∈ l1 := by
          rw [← hq1]
          exact hql1
        have heq := ih p.1 q.2 p.2 hqpair hpl2
        refine List.mem_map.mpr ⟨(p.1, q.2), hp1.mem_iff.mpr hqpair, ?_⟩
        simp only [Prod.mk.injEq]
        exact ⟨trivial, heq⟩
    exact List.eq_of_perm_of_sorted
      ((List.perm_ext_iff_of_nodup hmn1 hmn2).mpr hmem) hms1 hms2

/-- `normalize_params` is serialization after `normalize_value`. -/
theorem normalize_params_eq_serialize (p : Json) :
    normalize_params p = Json.serialize (normalize_value p) := by
  cases p with
  | null => simp [normalize_params, normalize_value]
  | bool b => simp [normalize_params, normalize_value]
  | num q => simp [normalize_params, normalize_value]
  | str s => simp [normalize_params, normalize_value]
  | arr xs => rw [normalize_params, normalize_value_arr]
  | obj l => rw [normalize_params, normalize_value_obj]
/-- C6: cache-key canonicalization.  For one method and two params values
that denote the same JSON value but may order object keys differently at
any nesting depth (`SameJson`), `create_cache_key` yields the same key. -/
theorem create_cache_key_canonical (method : String) (P1 P2 : Json)
    (h : SameJson P1 P2) :
    create_cache_key method P1 = create_cache_key method P2 := by
  cases h with
  | null => rfl
  | bool b => rfl
  | num q => rfl
  | str s => rfl
  | @arr xs ys hlen harr =>
    have hnv := normalize_value_congr _ _ (SameJson.arr hlen harr)
    simp only [create_cache_key, normalize_params_eq_serialize, hnv]
  | @obj l1 l2 h1 h2 hk hv =>
    have hnv := normalize_value_congr _ _ (SameJson.obj h1 h2 hk hv)
    simp only [create_cache_key, normalize_params_eq_serialize, hnv]

theorem create_cache_key_canonical_witness :
    SameJson (.obj [("a", .num 1), ("b", .num 2)])
      (.obj [("b", .num 2), ("a", .num 1)]) ∧
    create_cache_key "getBalance" (.obj [("a", .num 1), ("b", .num 2)]) =
      create_cache_key "getBalance" (.obj [("b", .num 2), ("a", .num 1)]) := by
  have h : SameJson (.obj [("a", .num 1), ("b", .num 2)])
      (.obj [("b", .num 2), ("a", .num 1)]) := by
    apply SameJson.obj
    · decide
    · decide
    · intro k
      simp [or_comm]
    · intro k v w hv1 hv2
      simp only [List.mem_cons, List.not_mem_nil, or_false, Prod.mk.injEq] at hv1 hv2
      rcases hv1 with ⟨rfl, rfl⟩ | ⟨rfl, rfl⟩ <;> rcases hv2 with ⟨hk2, rfl⟩ | ⟨hk2, rfl⟩
      · exact absurd hk2 (by decide)
      · exact SameJson.num 1
      · exact SameJson.num 2
      · exact absurd hk2 (by decide)
  exact ⟨h, create_cache_key_canonical "getBalance" _ _ h⟩
/-- A fresh unexpired head entry is served by the local cache, bumping its
access counters. -/
theorem get_from_local_cache_head (entry : CacheEntry) (rest : LocalCache)
    (key : String) (n2 : ℕ) (hn2 : n2 < entry.expires_at) :
    get_from_local_cache ((key, entry) :: rest) key n2 =
      (some entry.value,
        (key, { entry with access_count := entry.access_count + 1, last_accessed := n2 }) ::
          ((key, entry) :: rest).filter (fun p => p.1 ≠ key)) := by
  simp only [get_from_local_cache]
  rw [List.find?_cons_of_pos _ (by simp)]
  simp [hn2]
/-- C10: for a cacheable method with caching enabled, the router caches
whatever reply the dispatch path returned — error envelopes included — and
a second request for the same method and params within the TTL is answered
with that very reply straight from the cache, whatever the second call's
dispatchers would have returned. -/
theorem cached_reply_served_within_ttl (config : CacheConfig)
    (dc ds dc2 ds2 : RpcRequest → Except AppError Json)
    (payload : Json) (req : RpcRequest) (cache cache1 : LocalCache)
    (r : Json) (now now2 : ℕ)
    (henabled : config.enabled = true)
    (hval : validate_rpc_request payload = .ok req)
    (hcacheable : is_method_cacheable req.method = true)
    (hmiss : cache_service_get config cache req.method (req.params.getD .null) now =
      (none, cache1))
    (hdisp : (if should_use_consensus req.method then dc req else ds req) = .ok r)
    (httl : now2 < now + get_ttl_for_method config req.method) :
    handle_single_request config dc ds payload cache now =
      .ok (r, cache_service_set config cache1 req.method (req.params.getD .null) r now) ∧
    ∃ cache2,
      handle_single_request config dc2 ds2 payload
        (cache_service_set config cache1 req.method (req.params.getD .null) r now) now2 =
      .ok (r, cache2) := by
  have hset : cache_service_set config cache1 req.method (req.params.getD .null) r now =
      (create_cache_key req.method (req.params.getD .null),
        ⟨r, now + get_ttl_for_method config req.method, 1, now⟩) ::
      ((if cache1.length ≥ 10000 then evict_local_cache_entries cache1 now else cache1).filter
        (fun p => p.1 ≠ create_cache_key req.method (req.params.getD .null))) := by
    simp [cache_service_set, store_in_local_cache, henabled, hcacheable]
  constructor
  · simp only [handle_single_request, hval]
    rw [hmiss, hdisp]
  · have hget2 : cache_service_get config
        (cache_service_set config cache1 req.method (req.params.getD .null) r now)
        req.method (req.params.getD .null) now2 =
        (some r,
          (create_cache_key req.method (req.params.getD .null),
            ⟨r, now + get_ttl_for_method config req.method, 2, now2⟩) ::
          ((cache_service_set config cache1 req.method (req.params.getD .null) r now).filter
            (fun p => p.1 ≠ create_cache_key req.method (req.params.getD .null)))) := by
      rw [hset]
      simp only [cache_service_get]
      rw [if_neg (by simp [henabled, hcacheable])]
      exact get_from_local_cache_head _ _ _ _ httl
    refine ⟨(create_cache_key req.method (req.params.getD .null),
        ⟨r, now + get_ttl_for_method config req.method, 2, now2⟩) ::
      ((cache_service_set config cache1 req.method (req.params.getD .null) r now).filter
        (fun p => p.1 ≠ create_cache_key req.method (req.params.getD .null))), ?_⟩
    simp only [handle_single_request, hval]
    rw [hget2]
theorem cached_reply_served_within_ttl_witness :
    handle_single_request ⟨true, 60, []⟩
      (fun _ => .error (.InternalError "unreachable"))
      (fun _ => .ok (.obj [("jsonrpc", .str "2.0"),
        ("error", .obj [("code", .num (-32601)), ("message", .str "Method not found")]),
        ("id", .num 1)]))
      (.obj [("jsonrpc", .str "2.0"), ("id", .num 1), ("method", .str "getGenesisHash")])
      [] 0 =
      .ok (.obj [("jsonrpc", .str "2.0"),
        ("error", .obj [("code", .num (-32601)), ("message", .str "Method not found")]),
        ("id", .num 1)],
        cache_service_set ⟨true, 60, []⟩ [] "getGenesisHash" .null
          (.obj [("jsonrpc", .str "2.0"),
            ("error", .obj [("code", .num (-32601)), ("message", .str "Method not found")]),
            ("id", .num 1)]) 0) ∧
    ∃ cache2,
      handle_single_request ⟨true, 60, []⟩
        (fun _ => .error (.InternalError "unreachable"))
        (fun _ => .error (.InternalError "unreachable"))
        (.obj [("jsonrpc", .str "2.0"), ("id", .num 1), ("method", .str "getGenesisHash")])
        (cache_service_set ⟨true, 60, []⟩ [] "getGenesisHash" .null
          (.obj [("jsonrpc", .str "2.0"),
            ("error", .obj [("code", .num (-32601)), ("message", .str "Method not found")]),
            ("id", .num 1)]) 0) 1 =
      .ok (.obj [("jsonrpc", .str "2.0"),
        ("error", .obj [("code", .num (-32601)), ("message", .str "Method not found")]),
        ("id", .num 1)], cache2) :=
  cached_reply_served_within_ttl ⟨true, 60, []⟩
    (fun _ => .error (.InternalError "unreachable"))
    (fun _ => .ok (.obj [("jsonrpc", .str "2.0"),
      ("error", .obj [("code", .num (-32601)), ("message", .str "Method not found")]),
      ("id", .num 1)]))
    (fun _ => .error (.InternalError "unreachable"))
    (fun _ => .error (.InternalError "unreachable"))
    (.obj [("jsonrpc", .str "2.0"), ("id", .num 1), ("method", .str "getGenesisHash")])
    ⟨some (.num 1), "getGenesisHash", none, "2.0"⟩ [] []
    (.obj [("jsonrpc", .str "2.0"),
      ("error", .obj [("code", .num (-32601)), ("message", .str "Method not found")]),
      ("id", .num 1)]) 0 1
    rfl rfl rfl rfl rfl (by decide)
